import Mathlib

/-!
Verification of the Jungle (Dou-Shou-Qi) agent engine.

This file shallowly embeds the rules engine, the incremental apply/undo
protocol, the minimax/alpha-beta search and the rollout move selection of
the Python source (src/main.py, class `Jungle` and class `Player`), and
proves or refutes the specification's claims about them.

Modelling conventions:
* Positions are integer pairs `(x, y)` as in the source; the board is a
  9-row list of 7-cell rows (`board[y][x]`), a cell holding `Option (player, rank)`.
* The per-player piece dictionary `self.pieces[player][rank] = (x, y)` is a
  2-row list of 8-slot rows (`Option (x, y)`), one slot per rank; Python's
  dict insertion order is abstracted away (every claim below depends only on
  the rank-to-position mapping, never on dict iteration order).
* Out-of-range list reads give `none` and out-of-range writes are no-ops;
  the source's accesses are bounds-guarded on every path the claims exercise.
* Python's float `inf` / `-inf` mixed with ints is the three-way order `JVal`.
-/

namespace Jungle

/-- A board square, written `(x, y)` exactly as in the source. -/
abbrev Pos := Int × Int

/-- A piece `(player, rank)` as stored in board cells. -/
abbrev Piece := Nat × Nat

/-- A move `(pos1, pos2)` = (from, to). -/
abbrev Move := Pos × Pos

/-- `MAX_DEPTH = 3` (module constant). -/
def MAX_DEPTH : Nat := 3

/-- Heuristic weight `A = 1`. -/
def A : Int := 1

/-- Heuristic weight `B = 1`. -/
def B : Int := 1

/-- `Jungle.MAXIMAL_PASSIVE = 30`. -/
def MAXIMAL_PASSIVE : Int := 30

/-- `Jungle.MX = 7` (board width). -/
def MX : Int := 7

/-- `Jungle.MY = 9` (board height). -/
def MY : Int := 9

/-- `Jungle.traps`: the six trap cells. -/
def traps : List Pos := [(2, 0), (4, 0), (3, 1), (2, 8), (4, 8), (3, 7)]

/-- `Jungle.ponds`: the twelve river cells, `x ∈ {1,2,4,5}, y ∈ {3,4,5}`. -/
def ponds : List Pos := [1, 2, 4, 5].flatMap fun x => [3, 4, 5].map fun y => ((x : Int), (y : Int))

/-- `Jungle.dens = [(3,8), (3,0)]`: player 0's den, player 1's den. -/
def dens : List Pos := [(3, 8), (3, 0)]

/-- `Jungle.dirs`: the four orthogonal step directions. -/
def dirs : List (Int × Int) := [(0, 1), (1, 0), (-1, 0), (0, -1)]

/-- `rat = 0`. -/
def rat : Nat := 0

/-- `cat = 1`. -/
def cat : Nat := 1

/-- `dog = 2`. -/
def dog : Nat := 2

/-- `wolf = 3`. -/
def wolf : Nat := 3

/-- `jaguar = 4`. -/
def jaguar : Nat := 4

/-- `tiger = 5`. -/
def tiger : Nat := 5

/-- `lion = 6`. -/
def lion : Nat := 6

/-- `elephant = 7`. -/
def elephant : Nat := 7

/-- `Jungle.PIECE_VALUES = {0:4, 1:1, 2:2, 3:3, 4:5, 5:7, 6:8, 7:10}`. -/
def PIECE_VALUES : Nat → Int := fun i => [4, 1, 2, 3, 5, 7, 8, 10].getD i 0

/-- Read slot `j` of row `i` of a two-dimensional table whose cells hold
`Option α`; a missing row or slot reads as `none`. -/
def tget (t : List (List (Option α))) (i j : Nat) : Option α :=
  (t.getD i []).getD j none

/-- Write slot `j` of row `i`; out of range, the write is a no-op. -/
def tset (t : List (List (Option α))) (i j : Nat) (v : Option α) : List (List (Option α)) :=
  t.set i ((t.getD i []).set j v)

/-- The full game state of class `Jungle`: `self.board`, `self.pieces`,
`self.curplayer`, `self.peace_counter`, `self.winner`. -/
structure JState where
  board : List (List (Option Piece))
  pieces : List (List (Option Pos))
  curplayer : Nat
  peace_counter : Int
  winner : Option Nat
deriving DecidableEq, Repr

/-- `self.board[y][x]`, guarded to the non-negative quadrant (the source
bounds-checks coordinates before indexing on every path the claims use). -/
def bget (b : List (List (Option Piece))) (x y : Int) : Option Piece :=
  if 0 ≤ x ∧ 0 ≤ y then tget b y.toNat x.toNat else none

/-- `self.board[y][x] = v`; a no-op out of range. -/
def bset (b : List (List (Option Piece))) (x y : Int) (v : Option Piece) :
    List (List (Option Piece)) :=
  if 0 ≤ x ∧ 0 ≤ y then tset b y.toNat x.toNat v else b

/-- `self.pieces[pl][rank]`: the rank-to-position index (a dict in the source,
`none` standing for an absent key). -/
def pget (P : List (List (Option Pos))) (pl r : Nat) : Option Pos :=
  tget P pl r

/-- Assign (or, with `none`, delete) `self.pieces[pl][rank]`. -/
def pset (P : List (List (Option Pos))) (pl r : Nat) (v : Option Pos) :
    List (List (Option Pos)) :=
  tset P pl r v

/-- `Jungle.can_beat(p1, p2, pos1, pos2)`, clause for clause. -/
def can_beat (p1 p2 : Nat) (pos1 pos2 : Pos) : Bool :=
  if pos1 ∈ ponds ∧ pos2 ∈ ponds then true     -- rat vs rat
  else if pos1 ∈ ponds then false              -- rat in pond cannot beat a piece on land
  else if p1 = rat ∧ p2 = elephant then true
  else if p1 = elephant ∧ p2 = rat then false
  else if p2 ≤ p1 then true
  else if pos2 ∈ traps then true
  else false

/-- The list `ps` built by `pieces_comparison` for rank `i`: the players that
still own a piece of rank `i`. -/
def psAt (s : JState) (i : Nat) : List Nat :=
  [0, 1].filter fun p => (pget s.pieces p i).isSome

/-- The scanning loop of `Jungle.pieces_comparison` over a list of ranks. -/
def pcGo (s : JState) : List Nat → Option Nat
  | [] => none
  | i :: rest =>
    if (psAt s i).length = 1 then some ((psAt s i).getD 0 0) else pcGo s rest

/-- `Jungle.pieces_comparison(self)`: scan ranks 7 down to 0, return the first
player holding a rank the other does not; `none` when no rank is exclusive. -/
def pieces_comparison (s : JState) : Option Nat :=
  pcGo s [7, 6, 5, 4, 3, 2, 1, 0]

/-- `Jungle.rat_is_blocking(self, player_unused, pos, dx, dy)`. Note that the
source loops `for player in [0, 1]` and reads `self.pieces[1-player]`, so it
inspects the rats of BOTH players, not only the opponent's. -/
def rat_is_blocking (s : JState) (_player_unused : Nat) (pos : Pos) (dx dy : Int) : Bool :=
  let x := pos.1
  let y := pos.2
  let nx := x + dx
  [0, 1].any fun player =>
    match pget s.pieces (1 - player) rat with
    | none => false
    | some (rx, ry) =>
      if (rx, ry) ∈ ponds then
        decide ((dy ≠ 0 ∧ x = rx) ∨
          (dx ≠ 0 ∧ y = ry ∧ (x - rx).natAbs ≤ 2 ∧ (nx - rx).natAbs ≤ 2))
      else false

/-- The destination test at the end of `Jungle.moves`' inner loop: reject a
square held by one's own piece or by an opponent piece `can_beat` refuses;
everything else yields the move `(pos, pos2)`. -/
def okDest (s : JState) (player p : Nat) (pos pos2 : Pos) : Option Move :=
  match bget s.board pos2.1 pos2.2 with
  | some (pl2, piece2) =>
    if pl2 = player then none
    else if can_beat p piece2 pos pos2 then some (pos, pos2) else none
  | none => some (pos, pos2)

/-- `if dx != 0: dx *= 3` — the horizontal leap stretch. -/
def leapDx (dx : Int) : Int := if dx ≠ 0 then dx * 3 else dx

/-- `if dy != 0: dy *= 4` — the vertical leap stretch. -/
def leapDy (dy : Int) : Int := if dy ≠ 0 then dy * 4 else dy

/-- One direction of `Jungle.moves`' inner loop for piece `p` at `pos`:
bounds check, own-den check, river entry and tiger/lion leap, then `okDest`. -/
def moveCand (s : JState) (player p : Nat) (pos : Pos) (dir : Int × Int) : Option Move :=
  if 0 ≤ pos.1 + dir.1 ∧ pos.1 + dir.1 < MX ∧ 0 ≤ pos.2 + dir.2 ∧ pos.2 + dir.2 < MY then
    if dens.getD player (0, 0) = (pos.1 + dir.1, pos.2 + dir.2) then none
    else if (pos.1 + dir.1, pos.2 + dir.2) ∈ ponds then
      if ¬(p = rat ∨ p = tiger ∨ p = lion) then none
      else if p = tiger ∨ p = lion then
        if rat_is_blocking s player pos (leapDx dir.1) (leapDy dir.2) then none
        else okDest s player p pos (pos.1 + leapDx dir.1, pos.2 + leapDy dir.2)
      else okDest s player p pos (pos.1 + dir.1, pos.2 + dir.2)
    else okDest s player p pos (pos.1 + dir.1, pos.2 + dir.2)
  else none

/-- `Jungle.moves(self, player)`: all legal moves of `player`. The source
iterates `self.pieces[player].items()` in dict order; this model iterates
ranks 0..7, which enumerates the same set of moves. -/
def moves (s : JState) (player : Nat) : List Move :=
  (List.range 8).flatMap fun p =>
    match pget s.pieces player p with
    | none => []
    | some pos => dirs.filterMap fun dir => moveCand s player p pos dir

/-- `len(self.pieces[pl])`: the number of live pieces of player `pl`. -/
def liveCount (s : JState) (pl : Nat) : Nat :=
  ((s.pieces.getD pl []).filterMap id).length

/-- `Jungle.victory(self, player, mes)`: the terminal test. It returns the
boolean result and the state with the `self.winner` write applied. -/
def victory (s : JState) (player : Nat) : Bool × JState :=
  let oponent := 1 - player
  if liveCount s oponent = 0 then (true, { s with winner := some player })
  else
    let den := dens.getD oponent (0, 0)
    if (bget s.board den.1 den.2).isSome then (true, { s with winner := some player })
    else if MAXIMAL_PASSIVE ≤ s.peace_counter then
      match pieces_comparison s with
      | none => (true, { s with winner := some 0 })  -- draw is resolved as player 0
      | some r => (true, { s with winner := some r })
    else (false, s)

/-- `Jungle.do_move(self, m)`: flip `curplayer`; with `m = None` return at
once, otherwise capture if the destination is occupied (resetting the
passivity counter) or increment the counter, and move the piece in both
views. A `none` mover cell would raise in Python; it is unreachable for
legal moves and leaves the state unchanged here. -/
def do_move (s : JState) (m : Option Move) : JState :=
  let s1 := { s with curplayer := 1 - s.curplayer }
  match m with
  | none => s1
  | some ((x, y), (x2, y2)) =>
    match bget s1.board x y with
    | none => s1
    | some (pl, pc) =>
      let s2 :=
        match bget s1.board x2 y2 with
        | some (pl2, pc2) =>  -- piece taken!
          { s1 with pieces := pset s1.pieces pl2 pc2 none, peace_counter := 0 }
        | none => { s1 with peace_counter := s1.peace_counter + 1 }
      { s2 with
        pieces := pset s2.pieces pl pc (some (x2, y2)),
        board := bset (bset s2.board x2 y2 (some (pl, pc))) x y none }

/-- The locals the search's inline "affect" block saves for its undo:
`(pl, pc)`, `(pl2, pc2)` (initialised `0, 0`), `p_c` and `zbicie`. -/
structure SearchFrame where
  plpc : Piece
  plpc2 : Piece
  p_c : Int
  zbicie : Bool
deriving DecidableEq, Repr

/-- The inline "affect" block of `max_alpha_beta` / `min_alpha_beta`
(capture recording, passivity-counter update, board and rank-index move),
returning the mutated state and the saved frame. A `none` mover cell would
raise in Python; it is unreachable for legal moves. -/
def searchApply (s : JState) (m : Move) : JState × SearchFrame :=
  let a := m.1.1
  let b := m.1.2
  let c := m.2.1
  let d := m.2.2
  match bget s.board a b with
  | none => (s, ⟨(0, 0), (0, 0), s.peace_counter, false⟩)
  | some (pl, pc) =>
    let p_c := s.peace_counter
    match bget s.board c d with
    | some (pl2, pc2) =>  -- piece taken!
      ({ s with
          pieces := pset (pset s.pieces pl2 pc2 none) pl pc (some (c, d)),
          peace_counter := 0,
          board := bset (bset s.board c d (some (pl, pc))) a b none },
       ⟨(pl, pc), (pl2, pc2), p_c, true⟩)
    | none =>
      ({ s with
          pieces := pset s.pieces pl pc (some (c, d)),
          peace_counter := s.peace_counter + 1,
          board := bset (bset s.board c d (some (pl, pc))) a b none },
       ⟨(pl, pc), (0, 0), p_c, false⟩)

/-- The inline "undo everything" block of the search: restore the passivity
counter, the mover, and (on capture) the captured piece in both views. -/
def searchUndo (s : JState) (m : Move) (f : SearchFrame) : JState :=
  let a := m.1.1
  let b := m.1.2
  let c := m.2.1
  let d := m.2.2
  let pl := f.plpc.1
  let pc := f.plpc.2
  if f.zbicie then
    { s with
        pieces := pset (pset s.pieces f.plpc2.1 f.plpc2.2 (some (c, d))) pl pc (some (a, b)),
        peace_counter := f.p_c,
        board := bset (bset s.board a b (some (pl, pc))) c d (some f.plpc2) }
  else
    { s with
        peace_counter := s.peace_counter - 1,
        board := bset (bset s.board a b (some (pl, pc))) c d none,
        pieces := pset s.pieces pl pc (some (a, b)) }

/-- `Jungle.update(self, player, move_string, mes)` can raise the declared
`WrongMove` or, from `int(m)` on a token that is not an integer literal,
Python's builtin `ValueError` — two distinct exceptions. -/
inductive UpdErr where
  | wrongMove : UpdErr
  | valueError : UpdErr
deriving DecidableEq, Repr

/-- `tuple(int(m) for m in move_string.split(' '))`: the split is abstracted
as a token list, a token being `some n` when `int(...)` parses it and `none`
when it raises `ValueError`. -/
def parseInts : List (Option Int) → Option (List Int)
  | [] => some []
  | none :: _ => none
  | some v :: rest => (parseInts rest).map fun l => v :: l

/-- The tail of `Jungle.update` once the move is validated: `do_move`, then
`victory`; on a terminal result return `2 * winner - 1`, else `None`.
(`assert self.winner is not None` holds whenever `victory` returns true, so
`getD 0` is never the default.) -/
def finishUpdate (s : JState) (player : Nat) (m : Option Move) :
    Except UpdErr (Option Int × JState) :=
  let s1 := do_move s m
  let r := victory s1 player
  if r.1 then .ok (some (2 * ((r.2.winner.getD 0 : Int)) - 1), r.2)
  else .ok (none, r.2)

/-- `Jungle.update(self, player, move_string, mes)`: set `curplayer`, parse
the tokens, demand exactly 4 integers, re-derive the legal moves, enforce
the pass/non-pass contract and membership, then `finishUpdate`. -/
def update (s : JState) (player : Nat) (tokens : List (Option Int)) :
    Except UpdErr (Option Int × JState) :=
  let s0 := { s with curplayer := player }
  match parseInts tokens with
  | none => .error .valueError
  | some ints =>
    if ints.length ≠ 4 then .error .wrongMove
    else
      let possible_moves := moves s0 player
      if possible_moves.isEmpty then
        if ints ≠ [-1, -1, -1, -1] then .error .wrongMove
        else finishUpdate s0 player none
      else
        let mv : Move := ((ints.getD 0 0, ints.getD 1 0), (ints.getD 2 0, ints.getD 3 0))
        if mv ∈ possible_moves then finishUpdate s0 player (some mv)
        else .error .wrongMove

/-- `sum(PIECE_VALUES[i] for i in 7..0 if i in self.pieces[pl])`: the material
term of `Jungle.heur`. -/
def material (s : JState) (pl : Nat) : Int :=
  ((List.range 8).map fun i => if (pget s.pieces pl i).isSome then PIECE_VALUES i else 0).sum

/-- `Jungle.heur(self)`: `A*(material(1) - material(0)) + B*(mobility(1) - mobility(0))`. -/
def heur (s : JState) : Int :=
  let licz_1 := material s 1
  let licz_2 := material s 0
  let licz1_1 : Int := (moves s 1).length
  let licz1_2 : Int := (moves s 0).length
  A * (licz_1 - licz_2) + B * (licz1_1 - licz1_2)

/-- A search value: Python's `-inf`, a finite int, or `inf`. -/
inductive JVal where
  | negInf : JVal
  | num : Int → JVal
  | posInf : JVal
deriving DecidableEq, Repr

/-- `a <= b` on search values, as Python orders `-inf`, ints and `inf`. -/
def jle : JVal → JVal → Bool
  | .negInf, _ => true
  | _, .posInf => true
  | .num a, .num b => a ≤ b
  | _, _ => false

/-- `a < b` on search values. -/
def jlt (a b : JVal) : Bool := !(jle b a)

/-- Python's `bool` as an `int` (`False == 0`, `True == 1`), used because
`Jungle.utility` compares the boolean `victory(...)` against 0. -/
def boolToInt (b : Bool) : Int := if b then 1 else 0

/-- The 5-tuple the search returns: value and `px, py, px_2, py_2` (each an
int or `None`). -/
abbrev SearchRet := JVal × Option Int × Option Int × Option Int × Option Int

/-- `Jungle.utility(self, p)`: three successive boolean `victory` calls each
compared to 0. The winner writes of the three calls are threaded through;
the search never reads `self.winner`, so only the returned tuple matters.
Since a bool is 0 or 1, the `< 0` branch (`inf`) is unreachable and a
terminal state always yields `-inf`; the final `none` models Python's
implicit `None` fall-through, also unreachable. -/
def utility (s : JState) (p : Nat) : Option SearchRet :=
  let r1 := victory s p
  if boolToInt r1.1 < 0 then some (JVal.posInf, some 0, some 0, some 0, some 0)
  else
    let r2 := victory r1.2 p
    if boolToInt r2.1 = 0 then some (JVal.num 0, some 0, some 0, some 0, some 0)
    else
      let r3 := victory r2.2 p
      if 0 < boolToInt r3.1 then some (JVal.negInf, some 0, some 0, some 0, some 0)
      else none

/-- `Jungle.cut_off_tests(self, depth)`: `depth > MAX_DEPTH`. -/
def cut_off_tests (depth : Nat) : Bool := decide (MAX_DEPTH < depth)

/-- Placeholder tuple for the unreachable `None`-return of `utility` (Python
would raise unpacking it) and for exhausted fuel (never reached: see the
`max_alpha_beta` wrapper). -/
def dummyRet : SearchRet := (JVal.num 0, none, none, none, none)

mutual

/-- `Jungle.max_alpha_beta(self, alpha, beta, depth, start)` with explicit
fuel for termination (the wrappers below always supply enough). Note the
source's branch condition is `mov != [None]` — the move list compared against
the one-element list holding `None` — which is true even for an empty list,
so the `else` (pass) branch is dead code; it is still modelled, in
`maxPassBranch`. The in-place mutation/undo around each recursive call is
modelled by recursing on the mutated state and continuing with the original
(the round-trip theorem below shows the undo restores it exactly). -/
def max_alpha_betaF : Nat → JState → JVal → JVal → Nat → SearchRet
  | 0, _, _, _, _ => dummyRet
  | fuel + 1, s, alpha, beta, depth =>
    let mov := moves s 0
    if ((victory s 0).1 : Bool) then (utility (victory s 0).2 0).getD dummyRet
    else if cut_off_tests depth then (JVal.num (heur s), some 0, some 0, some 0, some 0)
    else if mov.map some ≠ [(none : Option Move)] then
      maxLoopF (fuel + 1) mov s alpha beta depth JVal.negInf none none none none
    else maxPassBranch fuel s alpha beta depth
termination_by fuel => (fuel, 2, 0)

/-- The dead pass branch of `max_alpha_beta` (lines 341-351 of the source):
recurse for the minimizer one ply deeper on the unmutated state; the two
return statements both yield `(value, None, None, None, None)`. -/
def maxPassBranch : Nat → JState → JVal → JVal → Nat → SearchRet
  | 0, _, _, _, _ => dummyRet
  | fuel + 1, s, alpha, beta, depth =>
    let r := min_alpha_betaF (fuel + 1) s alpha beta (depth + 1)
    let value := if jlt JVal.negInf r.1 then r.1 else JVal.negInf
    (value, none, none, none, none)
termination_by fuel => (fuel + 1, 1, 0)

/-- The maximizer's move loop: affect, recurse, undo, best/alpha/beta updates
with early return on `value >= beta`. -/
def maxLoopF : Nat → List Move → JState → JVal → JVal → Nat →
    JVal → Option Int → Option Int → Option Int → Option Int → SearchRet
  | _, [], _, _, _, _, value, px, py, px2, py2 => (value, px, py, px2, py2)
  | 0, _ :: _, _, _, _, _, value, px, py, px2, py2 => (value, px, py, px2, py2)
  | fuel + 1, m :: rest, s, alpha, beta, depth, value, px, py, px2, py2 =>
    let s2 := (searchApply s m).1
    let r := min_alpha_betaF fuel s2 alpha beta (depth + 1)
    let value2 := if jlt value r.1 then r.1 else value
    let px' := if jlt value r.1 then some m.1.1 else px
    let py' := if jlt value r.1 then some m.1.2 else py
    let px2' := if jlt value r.1 then some m.2.1 else px2
    let py2' := if jlt value r.1 then some m.2.2 else py2
    if jle beta value2 then (value2, px', py', px2', py2')
    else
      let alpha2 := if jlt alpha value2 then value2 else alpha
      maxLoopF (fuel + 1) rest s alpha2 beta depth value2 px' py' px2' py2'
termination_by fuel mvs => (fuel, 1, mvs.length)

/-- `Jungle.min_alpha_beta(self, alpha, beta, depth, start)`, mirror of the
maximizer (same dead pass branch, modelled in `minPassBranch`). -/
def min_alpha_betaF : Nat → JState → JVal → JVal → Nat → SearchRet
  | 0, _, _, _, _ => dummyRet
  | fuel + 1, s, alpha, beta, depth =>
    let mov := moves s 1
    if ((victory s 1).1 : Bool) then (utility (victory s 1).2 1).getD dummyRet
    else if cut_off_tests depth then (JVal.num (heur s), some 0, some 0, some 0, some 0)
    else if mov.map some ≠ [(none : Option Move)] then
      minLoopF (fuel + 1) mov s alpha beta depth JVal.posInf none none none none
    else minPassBranch fuel s alpha beta depth
termination_by fuel => (fuel, 2, 0)

/-- The dead pass branch of `min_alpha_beta` (lines 413-423 of the source). -/
def minPassBranch : Nat → JState → JVal → JVal → Nat → SearchRet
  | 0, _, _, _, _ => dummyRet
  | fuel + 1, s, alpha, beta, depth =>
    let r := max_alpha_betaF (fuel + 1) s alpha beta (depth + 1)
    let minv := if jlt r.1 JVal.posInf then r.1 else JVal.posInf
    (minv, none, none, none, none)
termination_by fuel => (fuel + 1, 1, 0)

/-- The minimizer's move loop: affect, recurse, undo, best/beta/alpha updates
with early return on `minv <= alpha`. -/
def minLoopF : Nat → List Move → JState → JVal → JVal → Nat →
    JVal → Option Int → Option Int → Option Int → Option Int → SearchRet
  | _, [], _, _, _, _, minv, qx, qy, qx1, qy1 => (minv, qx, qy, qx1, qy1)
  | 0, _ :: _, _, _, _, _, minv, qx, qy, qx1, qy1 => (minv, qx, qy, qx1, qy1)
  | fuel + 1, m :: rest, s, alpha, beta, depth, minv, qx, qy, qx1, qy1 =>
    let s2 := (searchApply s m).1
    let r := max_alpha_betaF fuel s2 alpha beta (depth + 1)
    let minv2 := if jlt r.1 minv then r.1 else minv
    let qx' := if jlt r.1 minv then some m.1.1 else qx
    let qy' := if jlt r.1 minv then some m.1.2 else qy
    let qx1' := if jlt r.1 minv then some m.2.1 else qx1
    let qy1' := if jlt r.1 minv then some m.2.2 else qy1
    if jle minv2 alpha then (minv2, qx', qy', qx1', qy1')
    else
      let beta2 := if jlt minv2 beta then minv2 else beta
      minLoopF (fuel + 1) rest s alpha beta2 depth minv2 qx' qy' qx1' qy1'
termination_by fuel mvs => (fuel, 1, mvs.length)

end

/-- Fuel sufficient for entry depth `d`: recursion only happens from depths
`<= MAX_DEPTH` (the cutoff fires first otherwise), so `6 - min d 5` covers
every reachable call and is never exhausted. -/
def fuelFor (depth : Nat) : Nat := 6 - min depth 5

/-- `Jungle.max_alpha_beta` at its actual recursion semantics. -/
def max_alpha_beta (s : JState) (alpha beta : JVal) (depth : Nat) : SearchRet :=
  max_alpha_betaF (fuelFor depth) s alpha beta depth

/-- `Jungle.min_alpha_beta` at its actual recursion semantics. -/
def min_alpha_beta (s : JState) (alpha beta : JVal) (depth : Nat) : SearchRet :=
  min_alpha_betaF (fuelFor depth) s alpha beta depth

/-- The candidate-collection loop of `Player.loop` (lines 497-506): given each
root move's rollout score `licz`, `if max_wygr <= licz: max_wygr = licz;
max_move.append(i)` — the list is never reset when a strictly better score
appears. `random.choice` is then taken uniformly over the returned list. -/
def selectGo : List (Move × Nat) → Int → List Move → List Move
  | [], _, acc => acc
  | (m, licz) :: rest, max_wygr, acc =>
    if max_wygr ≤ (licz : Int) then selectGo rest (licz : Int) (acc ++ [m])
    else selectGo rest max_wygr acc

/-- `max_move` as `Player.loop` builds it from the scored root candidates
(`max_wygr` starts at `-1`, `max_move` at `[]`). -/
def max_move_list (scored : List (Move × Nat)) : List Move :=
  selectGo scored (-1) []

/-- An empty board row. -/
def emptyRow : List (Option Piece) := [none, none, none, none, none, none, none]

/-- An empty rank index row. -/
def noRanks : List (Option Pos) := [none, none, none, none, none, none, none, none]

/-- The state `Jungle.__init__` builds, transcribed from `initial_board`'s
layout string (player 1 upper case on rows 0-2, player 0 lower case on rows
6-8) and the `__init__` scan that fills `self.pieces`. -/
def initState : JState where
  board :=
    [[some (1, 6), none, none, none, none, none, some (1, 5)],
     [none, some (1, 2), none, none, none, some (1, 1), none],
     [some (1, 0), none, some (1, 4), none, some (1, 3), none, some (1, 7)],
     emptyRow,
     emptyRow,
     emptyRow,
     [some (0, 7), none, some (0, 3), none, some (0, 4), none, some (0, 0)],
     [none, some (0, 1), none, none, none, some (0, 2), none],
     [some (0, 5), none, none, none, none, none, some (0, 6)]]
  pieces :=
    [[some (6, 6), some (1, 7), some (5, 7), some (2, 6),
      some (4, 6), some (0, 8), some (6, 8), some (0, 6)],
     [some (0, 2), some (5, 1), some (1, 1), some (4, 2),
      some (2, 2), some (6, 0), some (0, 0), some (6, 2)]]
  curplayer := 0
  peace_counter := 0
  winner := none

/-- A position in which player 1 has no pieces left — player 0 has won
outright — used to exhibit the `utility` sign bug. -/
def wonState : JState where
  board :=
    [emptyRow, emptyRow, emptyRow, emptyRow, emptyRow, emptyRow,
     [some (0, 0), none, none, none, none, none, none],
     emptyRow, emptyRow]
  pieces := [[some (0, 6), none, none, none, none, none, none, none], noRanks]
  curplayer := 0
  peace_counter := 0
  winner := none

/-- A non-terminal position in which player 0 (a lone rat cornered at
`(0,0)` by an uncapturable dog at `(0,1)` and cat at `(1,0)`) has no legal
move at all — used to exhibit the dead pass branch of the search. -/
def stuckState : JState where
  board :=
    [[some (0, 0), some (1, 1), none, none, none, none, none],
     [some (1, 2), none, none, none, none, none, none],
     emptyRow, emptyRow, emptyRow, emptyRow, emptyRow, emptyRow, emptyRow]
  pieces :=
    [[some (0, 0), none, none, none, none, none, none, none],
     [none, some (1, 0), some (0, 1), none, none, none, none, none]]
  curplayer := 0
  peace_counter := 0
  winner := none

/-- A position in which player 0's lion at `(1,2)` faces a vertical river
leap whose path holds player 0's OWN rat at `(1,4)`, while player 1 (a lone
elephant at `(6,0)`) has no rat at all — used against the "enemy rat"
reading of the leap block. -/
def ownRatState : JState where
  board :=
    [[none, none, none, none, none, none, some (1, 7)],
     emptyRow,
     [none, some (0, 6), none, none, none, none, none],
     emptyRow,
     [none, some (0, 0), none, none, none, none, none],
     emptyRow, emptyRow, emptyRow, emptyRow]
  pieces :=
    [[some (1, 4), none, none, none, none, none, some (1, 2), none],
     [none, none, none, none, none, none, none, some (6, 0)]]
  curplayer := 0
  peace_counter := 0
  winner := none

/-- A position at the passivity limit: player 0 keeps only its elephant,
player 1 only its rat, `peace_counter = 30` — rank 7 is held exclusively by
player 0, so the rank comparison resolves for player 0. -/
def passiveState : JState where
  board :=
    [emptyRow, emptyRow,
     [some (1, 0), none, none, none, none, none, none],
     emptyRow, emptyRow, emptyRow,
     [some (0, 7), none, none, none, none, none, none],
     emptyRow, emptyRow]
  pieces :=
    [[none, none, none, none, none, none, none, some (0, 6)],
     [some (0, 2), none, none, none, none, none, none, none]]
  curplayer := 0
  peace_counter := 30
  winner := none

/-- The board is a 9-row list of 7-cell rows. -/
def BoardDims (s : JState) : Prop :=
  s.board.length = 9 ∧ ∀ r ∈ s.board, r.length = 7

instance (s : JState) : Decidable (BoardDims s) := by
  unfold BoardDims
  infer_instance

/-- The rank index is a 2-row list of 8-slot rows. -/
def PiecesDims (s : JState) : Prop :=
  s.pieces.length = 2 ∧ ∀ r ∈ s.pieces, r.length = 8

instance (s : JState) : Decidable (PiecesDims s) := by
  unfold PiecesDims
  infer_instance

/-- Where the rank index places a live piece, the board holds that piece. -/
def pieceOnBoard (s : JState) (pl r : Nat) : Prop :=
  ∀ pos, pget s.pieces pl r = some pos → bget s.board pos.1 pos.2 = some (pl, r)

instance (s : JState) (pl r : Nat) : Decidable (pieceOnBoard s pl r) :=
  match h : pget s.pieces pl r with
  | some pos =>
    if hb : bget s.board pos.1 pos.2 = some (pl, r) then
      .isTrue (by intro pos2 h2; rw [h] at h2; injection h2 with h3; rw [← h3]; exact hb)
    else .isFalse (by intro hall; exact hb (hall pos h))
  | none => .isTrue (by intro pos2 h2; rw [h] at h2; exact absurd h2 (by simp))

/-- Where the board holds a piece, the rank index places it there. -/
def cellIndexed (s : JState) (xn yn : Nat) : Prop :=
  ∀ pl r, tget s.board yn xn = some (pl, r) → pget s.pieces pl r = some ((xn : Int), (yn : Int))

instance (s : JState) (xn yn : Nat) : Decidable (cellIndexed s xn yn) :=
  match h : tget s.board yn xn with
  | some plr =>
    if hb : pget s.pieces plr.1 plr.2 = some ((xn : Int), (yn : Int)) then
      .isTrue (by
        intro pl r h2
        rw [h] at h2
        injection h2 with h3
        subst h3
        exact hb)
    else .isFalse (by intro hall; exact hb (hall plr.1 plr.2 (by rw [h])))
  | none => .isTrue (by intro pl r h2; rw [h] at h2; exact absurd h2 (by simp))

/-- Direction A of the board/index coherence invariant, over the live slots. -/
def ConsistentA (s : JState) : Prop :=
  ∀ pl, pl < 2 → ∀ r, r < 8 → pieceOnBoard s pl r

instance (s : JState) : Decidable (ConsistentA s) := by
  unfold ConsistentA
  infer_instance

/-- Direction B of the board/index coherence invariant, over the board cells. -/
def ConsistentB (s : JState) : Prop :=
  ∀ xn, xn < 7 → ∀ yn, yn < 9 → cellIndexed s xn yn

instance (s : JState) : Decidable (ConsistentB s) := by
  unfold ConsistentB
  infer_instance

/-- Well-formedness: the dimensions of both views plus two-way coherence.
This holds for the initial state and is preserved by every legal move
(claim C4), so it holds on every reachable state. -/
def WF (s : JState) : Prop :=
  BoardDims s ∧ PiecesDims s ∧ ConsistentA s ∧ ConsistentB s

instance (s : JState) : Decidable (WF s) := by
  unfold WF BoardDims PiecesDims
  infer_instance

/-- `pos` is one of the 63 squares. -/
def OnBoard (x y : Int) : Prop := 0 ≤ x ∧ x < 7 ∧ 0 ≤ y ∧ y < 9

/-- Rank `r` of `player`, when live, stands off the river. -/
def rankOnLand (s : JState) (player r : Nat) : Prop :=
  ∀ pos, pget s.pieces player r = some pos → pos ∉ ponds

instance (s : JState) (player r : Nat) : Decidable (rankOnLand s player r) :=
  match h : pget s.pieces player r with
  | some pos =>
    if hb : pos ∈ ponds then
      .isFalse (by intro hall; exact hall pos h hb)
    else .isTrue (by intro pos2 h2; rw [h] at h2; injection h2 with h3; subst h3; exact hb)
  | none => .isTrue (by intro pos2 h2; rw [h] at h2; exact absurd h2 (by simp))

/-- Player `player`'s tiger and lion stand on land (true in any reachable
state, since tigers and lions can never end a move on a river cell): the
source recomputes a leap destination without re-checking bounds, and this
is what keeps that destination on the board. -/
def TigerLionOnLand (s : JState) (player : Nat) : Prop :=
  rankOnLand s player tiger ∧ rankOnLand s player lion

instance (s : JState) (player : Nat) : Decidable (TigerLionOnLand s player) := by
  unfold TigerLionOnLand
  infer_instance

/-- Rank `i` is held by `pl` and not by the other player. -/
def exclusiveRank (s : JState) (i pl : Nat) : Prop :=
  pl ≤ 1 ∧ (pget s.pieces pl i).isSome ∧ pget s.pieces (1 - pl) i = none

instance (s : JState) (i pl : Nat) : Decidable (exclusiveRank s i pl) := by
  unfold exclusiveRank
  infer_instance

/-- Rank `i` is held by exactly one of the two players. -/
def someExclusive (s : JState) (i : Nat) : Prop :=
  ∃ pl, exclusiveRank s i pl

/-- No two live pieces stand on the same square. -/
def PosInjective (s : JState) : Prop :=
  ∀ pl r pl2 r2 pos, pget s.pieces pl r = some pos → pget s.pieces pl2 r2 = some pos →
    pl = pl2 ∧ r = r2

/-- The full state invariant of claim C4: the two views agree both ways,
each owner has at most 8 live pieces, and no square is shared. -/
def StateInv (s : JState) : Prop :=
  ConsistentA s ∧ ConsistentB s ∧ (∀ pl, liveCount s pl ≤ 8) ∧ PosInjective s

/-- When `update` raises the declared `WrongMove` error: all tokens parse as
integers, and either there are not exactly 4 of them, or there is no legal
move and the tokens are not the pass `-1 -1 -1 -1`, or legal moves exist
and the decoded move is not one of them (this also covers a pass submitted
while moves exist, since no legal move has the form `((-1,-1),(-1,-1))`). -/
def WrongMoveCond (s : JState) (player : Nat) (tokens : List (Option Int)) : Prop :=
  ∃ ints, parseInts tokens = some ints ∧
    (ints.length ≠ 4 ∨
     (moves s player = [] ∧ ints ≠ [-1, -1, -1, -1]) ∨
     (moves s player ≠ [] ∧
       (((ints.getD 0 0, ints.getD 1 0), (ints.getD 2 0, ints.getD 3 0)) : Move) ∉
         moves s player))

instance (s : JState) (player : Nat) (tokens : List (Option Int)) :
    Decidable (WrongMoveCond s player tokens) := by
  unfold WrongMoveCond
  exact match h : parseInts tokens with
  | some ints =>
    decidable_of_iff (ints.length ≠ 4 ∨
      (moves s player = [] ∧ ints ≠ [-1, -1, -1, -1]) ∨
      (moves s player ≠ [] ∧
        (((ints.getD 0 0, ints.getD 1 0), (ints.getD 2 0, ints.getD 3 0)) : Move) ∉
          moves s player))
      (by
        constructor
        · intro hcond
          exact ⟨ints, rfl, hcond⟩
        · rintro ⟨ints2, hints2, hcond⟩
          injection hints2 with h2
          rw [h2]
          exact hcond)
  | none =>
    .isFalse (by rintro ⟨ints2, hints2, _⟩; exact absurd hints2 (by simp))

/-- What the validated `update` returns on success: `None` while the game
continues (no winner recorded), `+1` when the result resolves to player 1,
`-1` when it resolves to player 0. -/
def UpdateReturnSpec (s : JState) (player : Nat) (tokens : List (Option Int)) : Prop :=
  ∀ r s2, update s player tokens = Except.ok (r, s2) →
    (r = none ∧ s2.winner = s.winner) ∨ (r = some 1 ∧ s2.winner = some 1) ∨
      (r = some (-1) ∧ s2.winner = some 0)

/-- One unfolding step of `max_alpha_betaF` (its recursion is well-founded,
so the kernel cannot reduce it; evaluations below rewrite with this). -/
theorem max_alpha_betaF_succ (fuel : Nat) (s : JState) (alpha beta : JVal) (depth : Nat) :
    max_alpha_betaF (fuel + 1) s alpha beta depth =
      (let mov := moves s 0
       if ((victory s 0).1 : Bool) then (utility (victory s 0).2 0).getD dummyRet
       else if cut_off_tests depth then (JVal.num (heur s), some 0, some 0, some 0, some 0)
       else if mov.map some ≠ [(none : Option Move)] then
         maxLoopF (fuel + 1) mov s alpha beta depth JVal.negInf none none none none
       else maxPassBranch fuel s alpha beta depth) := by
  rw [max_alpha_betaF]

/-- One unfolding step of `min_alpha_betaF`. -/
theorem min_alpha_betaF_succ (fuel : Nat) (s : JState) (alpha beta : JVal) (depth : Nat) :
    min_alpha_betaF (fuel + 1) s alpha beta depth =
      (let mov := moves s 1
       if ((victory s 1).1 : Bool) then (utility (victory s 1).2 1).getD dummyRet
       else if cut_off_tests depth then (JVal.num (heur s), some 0, some 0, some 0, some 0)
       else if mov.map some ≠ [(none : Option Move)] then
         minLoopF (fuel + 1) mov s alpha beta depth JVal.posInf none none none none
       else minPassBranch fuel s alpha beta depth) := by
  rw [min_alpha_betaF]

/-- The maximizer's loop on an exhausted move list returns the running
value and best coordinates unchanged. -/
theorem maxLoopF_nil (fuel : Nat) (s : JState) (alpha beta : JVal) (depth : Nat)
    (value : JVal) (px py px2 py2 : Option Int) :
    maxLoopF fuel [] s alpha beta depth value px py px2 py2 = (value, px, py, px2, py2) := by
  rw [maxLoopF]

/-- The minimizer's loop on an exhausted move list returns the running
value and best coordinates unchanged. -/
theorem minLoopF_nil (fuel : Nat) (s : JState) (alpha beta : JVal) (depth : Nat)
    (minv : JVal) (qx qy qx1 qy1 : Option Int) :
    minLoopF fuel [] s alpha beta depth minv qx qy qx1 qy1 = (minv, qx, qy, qx1, qy1) := by
  rw [minLoopF]

/-! ## List and table lemmas -/

/-- Setting an index back to the value it already holds is the identity. -/
theorem set_self_of_getElem (l : List α) (n : Nat) (a : α) (h : l[n]? = some a) :
    l.set n a = l := by
  apply List.ext_getElem?
  intro m
  by_cases hm : n = m
  · subst hm
    simp [List.getElem?_set_self', h]
  · simp [List.getElem?_set_ne hm]

/-- Setting past the end of a list is the identity. -/
theorem set_oob (l : List α) (n : Nat) (a : α) (h : l.length ≤ n) : l.set n a = l := by
  apply List.ext_getElem?
  intro m
  by_cases hm : n = m
  · subst hm
    simp [List.getElem?_set_self', List.getElem?_eq_none h]
  · simp [List.getElem?_set_ne hm]

/-- A successful `tget` certifies both indexes are in range. -/
theorem tget_some_lt {t : List (List (Option α))} {i j : Nat} {v : α}
    (h : tget t i j = some v) : i < t.length ∧ j < (t.getD i []).length := by
  constructor
  · by_contra hge
    push_neg at hge
    unfold tget at h
    rw [List.getD_eq_default _ _ hge] at h
    simp at h
  · by_contra hge
    push_neg at hge
    unfold tget at h
    rw [List.getD_eq_default _ _ hge] at h
    simp at h

/-- Reading the row just written: in range it is the new row. -/
theorem getD_set_row (t : List (List (Option α))) (i : Nat) (row : List (Option α))
    (hi : i < t.length) : (t.set i row).getD i [] = row := by
  rw [List.getD_eq_getElem?_getD, List.getElem?_set_self', List.getElem?_eq_getElem hi]
  rfl

/-- Reading another row after a write leaves it unchanged. -/
theorem getD_set_row_ne (t : List (List (Option α))) (i i2 : Nat) (row : List (Option α))
    (h : i ≠ i2) : (t.set i row).getD i2 [] = t.getD i2 [] := by
  rw [List.getD_eq_getElem?_getD, List.getElem?_set_ne h, List.getD_eq_getElem?_getD]

/-- Two writes to the same slot collapse to the second. -/
theorem tset_tset_same (t : List (List (Option α))) (i j : Nat) (v w : Option α) :
    tset (tset t i j v) i j w = tset t i j w := by
  unfold tset
  by_cases hi : i < t.length
  · rw [getD_set_row _ _ _ hi, List.set_set, List.set_set]
  · push_neg at hi
    have h1 : ∀ row, t.set i row = t := fun row => set_oob t i row hi
    simp only [h1]

/-- Writing a slot's current value back is the identity. -/
theorem tset_tget_self (t : List (List (Option α))) (i j : Nat) :
    tset t i j (tget t i j) = t := by
  unfold tset tget
  by_cases hi : i < t.length
  · have hrow : t[i]? = some (t.getD i []) := by
      rw [List.getD_eq_getElem?_getD, List.getElem?_eq_getElem hi]
      rfl
    by_cases hj : j < (t.getD i []).length
    · rw [show (t.getD i []).getD j none = (t.getD i [])[j] from by
        rw [List.getD_eq_getElem?_getD, List.getElem?_eq_getElem hj]; rfl]
      rw [set_self_of_getElem _ j _ (List.getElem?_eq_getElem hj)]
      exact set_self_of_getElem t i _ hrow
    · push_neg at hj
      rw [set_oob _ _ _ hj]
      exact set_self_of_getElem t i _ hrow
  · push_neg at hi
    exact set_oob t i _ hi

/-- Writes to distinct slots commute. -/
theorem tset_comm (t : List (List (Option α))) (i j i2 j2 : Nat) (v w : Option α)
    (h : ¬(i = i2 ∧ j = j2)) :
    tset (tset t i j v) i2 j2 w = tset (tset t i2 j2 w) i j v := by
  unfold tset
  by_cases hii : i = i2
  · subst hii
    have hjj : j ≠ j2 := fun hc => h ⟨rfl, hc⟩
    by_cases hi : i < t.length
    · rw [getD_set_row _ _ _ hi, getD_set_row _ _ _ hi, List.set_set, List.set_set,
        List.set_comm _ _ _ hjj]
    · push_neg at hi
      have h1 : ∀ row, t.set i row = t := fun row => set_oob t i row hi
      simp only [h1]
  · rw [getD_set_row_ne _ _ _ _ hii, getD_set_row_ne _ _ _ _ (Ne.symm hii),
      List.set_comm _ _ _ hii]

/-- Reading the slot just written, in range. -/
theorem tget_tset_self (t : List (List (Option α))) (i j : Nat) (v : Option α)
    (hi : i < t.length) (hj : j < (t.getD i []).length) :
    tget (tset t i j v) i j = v := by
  unfold tget tset
  rw [getD_set_row _ _ _ hi, List.getD_eq_getElem?_getD,
    List.getElem?_set_eq_of_lt _ (by simpa using hj)]
  rfl

/-- Reading any other slot after a write. -/
theorem tget_tset_ne (t : List (List (Option α))) (i j i2 j2 : Nat) (v : Option α)
    (h : ¬(i = i2 ∧ j = j2)) :
    tget (tset t i j v) i2 j2 = tget t i2 j2 := by
  unfold tget tset
  by_cases hii : i = i2
  · subst hii
    have hjj : j ≠ j2 := fun hc => h ⟨rfl, hc⟩
    by_cases hi : i < t.length
    · rw [getD_set_row _ _ _ hi, List.getD_eq_getElem?_getD,
        List.getElem?_set_ne hjj, ← List.getD_eq_getElem?_getD]
    · push_neg at hi
      rw [set_oob _ _ _ hi]
  · rw [getD_set_row_ne _ _ _ _ hii]

/-! ## Board-level (integer-indexed) lemmas -/

/-- A successful `bget` certifies non-negative, in-range coordinates. -/
theorem bget_some_lt {b : List (List (Option Piece))} {x y : Int} {v : Piece}
    (h : bget b x y = some v) :
    0 ≤ x ∧ 0 ≤ y ∧ y.toNat < b.length ∧ x.toNat < (b.getD y.toNat []).length := by
  unfold bget at h
  by_cases hg : 0 ≤ x ∧ 0 ≤ y
  · rw [if_pos hg] at h
    exact ⟨hg.1, hg.2, (tget_some_lt h).1, (tget_some_lt h).2⟩
  · rw [if_neg hg] at h
    exact absurd h (by simp)

/-- Two board writes to the same square collapse to the second. -/
theorem bset_bset_same (b : List (List (Option Piece))) (x y : Int) (v w : Option Piece) :
    bset (bset b x y v) x y w = bset b x y w := by
  unfold bset
  by_cases hg : 0 ≤ x ∧ 0 ≤ y
  · rw [if_pos hg, if_pos hg, if_pos hg, tset_tset_same]
  · rw [if_neg hg, if_neg hg, if_neg hg]

/-- Writing a square's current contents back is the identity. -/
theorem bset_bget_self (b : List (List (Option Piece))) (x y : Int) :
    bset b x y (bget b x y) = b := by
  unfold bset bget
  by_cases hg : 0 ≤ x ∧ 0 ≤ y
  · rw [if_pos hg, if_pos hg, tset_tget_self]
  · rw [if_neg hg]

/-- Board writes to distinct squares commute. -/
theorem bset_comm (b : List (List (Option Piece))) (x y x2 y2 : Int) (v w : Option Piece)
    (h : ¬((x, y) : Pos) = (x2, y2)) :
    bset (bset b x y v) x2 y2 w = bset (bset b x2 y2 w) x y v := by
  unfold bset
  by_cases hg : 0 ≤ x ∧ 0 ≤ y
  · by_cases hg2 : 0 ≤ x2 ∧ 0 ≤ y2
    · simp only [hg, hg2, and_self, if_true]
      refine tset_comm _ _ _ _ _ _ _ ?_
      rintro ⟨hyy, hxx⟩
      apply h
      have hx : x = x2 := by omega
      have hy : y = y2 := by omega
      rw [hx, hy]
    · simp [hg, hg2]
  · by_cases hg2 : 0 ≤ x2 ∧ 0 ≤ y2
    · simp [hg, hg2]
    · simp [hg, hg2]

/-- Reading the square just written, in range. -/
theorem bget_bset_self (b : List (List (Option Piece))) (x y : Int) (v : Option Piece)
    (hx : 0 ≤ x) (hy : 0 ≤ y) (h1 : y.toNat < b.length)
    (h2 : x.toNat < (b.getD y.toNat []).length) :
    bget (bset b x y v) x y = v := by
  unfold bget bset
  rw [if_pos ⟨hx, hy⟩, if_pos ⟨hx, hy⟩, tget_tset_self _ _ _ _ h1 h2]

/-- Reading any other square after a board write. -/
theorem bget_bset_ne (b : List (List (Option Piece))) (x y x2 y2 : Int) (v : Option Piece)
    (h : ¬((x, y) : Pos) = (x2, y2)) :
    bget (bset b x y v) x2 y2 = bget b x2 y2 := by
  unfold bget bset
  by_cases hg : 0 ≤ x ∧ 0 ≤ y
  · by_cases hg2 : 0 ≤ x2 ∧ 0 ≤ y2
    · simp only [hg, hg2, and_self, if_true]
      refine tget_tset_ne _ _ _ _ _ _ ?_
      rintro ⟨hyy, hxx⟩
      apply h
      have hx : x = x2 := by omega
      have hy : y = y2 := by omega
      rw [hx, hy]
    · simp [hg, hg2]
  · simp [hg]

/-! ## Coherence lemmas between the two state views -/

/-- Under the dimension invariant, a live index entry implies its owner and
rank are in range. -/
theorem pget_some_bounds {s : JState} (hpd : PiecesDims s) {pl r : Nat} {pos : Pos}
    (h : pget s.pieces pl r = some pos) : pl < 2 ∧ r < 8 := by
  have h1 := tget_some_lt (t := s.pieces) (i := pl) (j := r) h
  have hrow : s.pieces.getD pl [] ∈ s.pieces := by
    rw [List.getD_eq_getElem?_getD, List.getElem?_eq_getElem h1.1]
    exact List.getElem_mem _
  have hlen := hpd.2 _ hrow
  have hp2 : pl < 2 := by
    have := h1.1
    rw [hpd.1] at this
    exact this
  exact ⟨hp2, by rw [hlen] at h1; exact h1.2⟩

/-- Under the dimension invariant, ranks 8 and above are never live. -/
theorem pget_none_of_ge {s : JState} (hpd : PiecesDims s) (pl : Nat) {r : Nat}
    (hr : 8 ≤ r) : pget s.pieces pl r = none := by
  rcases h : pget s.pieces pl r with _ | pos
  · rfl
  · have := (pget_some_bounds hpd h).2
    omega

/-- Direction A through the wrappers: a live piece's cell holds it. -/
theorem bget_of_pget {s : JState} (hpd : PiecesDims s) (hA : ConsistentA s)
    {pl r : Nat} {pos : Pos} (h : pget s.pieces pl r = some pos) :
    bget s.board pos.1 pos.2 = some (pl, r) := by
  obtain ⟨h1, h2⟩ := pget_some_bounds hpd h
  exact hA pl h1 r h2 pos h

/-- Direction B through the wrappers: an occupied cell is indexed at that
position. -/
theorem pget_of_bget {s : JState} (hbd : BoardDims s) (hB : ConsistentB s)
    {x y : Int} {pl r : Nat} (h : bget s.board x y = some (pl, r)) :
    pget s.pieces pl r = some (x, y) := by
  obtain ⟨hx, hy, h1, h2⟩ := bget_some_lt h
  have hy9 : y.toNat < 9 := by rw [hbd.1] at h1; exact h1
  have hrow : s.board.getD y.toNat [] ∈ s.board := by
    rw [List.getD_eq_getElem?_getD, List.getElem?_eq_getElem h1]
    exact List.getElem_mem _
  have hx7 : x.toNat < 7 := by rw [hbd.2 _ hrow] at h2; exact h2
  have hcell : tget s.board y.toNat x.toNat = some (pl, r) := by
    unfold bget at h
    rw [if_pos ⟨hx, hy⟩] at h
    exact h
  have := hB x.toNat hx7 y.toNat hy9 pl r hcell
  rw [Int.toNat_of_nonneg hx, Int.toNat_of_nonneg hy] at this
  exact this

/-! ## What membership in the legal-move list gives -/

/-- What a successful destination test certifies: the move is `(pos, pos2)`
and the target square is empty or holds a capturable opponent piece. -/
theorem okDest_some {s : JState} {player p : Nat} {pos pos2 : Pos} {m : Move}
    (h : okDest s player p pos pos2 = some m) :
    m = (pos, pos2) ∧
      (bget s.board pos2.1 pos2.2 = none ∨
        ∃ pl2 pc2, bget s.board pos2.1 pos2.2 = some (pl2, pc2) ∧ pl2 ≠ player ∧
          can_beat p pc2 pos pos2 = true) := by
  unfold okDest at h
  rcases hb : bget s.board pos2.1 pos2.2 with _ | plr
  · rw [hb] at h
    dsimp only at h
    injection h with h1
    exact ⟨h1.symm, Or.inl rfl⟩
  · obtain ⟨pl2, pc2⟩ := plr
    rw [hb] at h
    dsimp only at h
    by_cases hpl : pl2 = player
    · rw [if_pos hpl] at h
      exact absurd h (by simp)
    · rw [if_neg hpl] at h
      by_cases hcb : can_beat p pc2 pos pos2 = true
      · rw [if_pos hcb] at h
        injection h with h1
        exact ⟨h1.symm, Or.inr ⟨pl2, pc2, rfl, hpl, hcb⟩⟩
      · rw [if_neg hcb] at h
        exact absurd h (by simp)

/-- What a produced move candidate certifies: it starts at the piece's
square, ends somewhere else, and its destination passed the occupancy test. -/
theorem moveCand_some {s : JState} {player p : Nat} {pos : Pos} {dir : Int × Int}
    (hdir : dir ∈ dirs) {m : Move} (h : moveCand s player p pos dir = some m) :
    m.1 = pos ∧ m.1 ≠ m.2 ∧
      (bget s.board m.2.1 m.2.2 = none ∨
        ∃ pl2 pc2, bget s.board m.2.1 m.2.2 = some (pl2, pc2) ∧ pl2 ≠ player ∧
          can_beat p pc2 m.1 m.2 = true) := by
  have hdir0 : dir.1 ≠ 0 ∨ dir.2 ≠ 0 := by
    fin_cases hdir <;> simp
  unfold moveCand at h
  split_ifs at h with hbound hden hpond hrank hcats hblock
  · -- tiger/lion leap destination
    obtain ⟨heq, hocc⟩ := okDest_some h
    subst heq
    refine ⟨rfl, ?_, hocc⟩
    intro hcontra
    rw [Prod.ext_iff] at hcontra
    obtain ⟨h1, h2⟩ := hcontra
    dsimp at h1 h2
    unfold leapDx at h1
    unfold leapDy at h2
    rcases hdir0 with hd | hd
    · rw [if_pos hd] at h1
      omega
    · rw [if_pos hd] at h2
      omega
  · -- rat entering the river
    obtain ⟨heq, hocc⟩ := okDest_some h
    subst heq
    refine ⟨rfl, ?_, hocc⟩
    intro hcontra
    rw [Prod.ext_iff] at hcontra
    obtain ⟨h1, h2⟩ := hcontra
    dsimp at h1 h2
    omega
  · -- ordinary land step
    obtain ⟨heq, hocc⟩ := okDest_some h
    subst heq
    refine ⟨rfl, ?_, hocc⟩
    intro hcontra
    rw [Prod.ext_iff] at hcontra
    obtain ⟨h1, h2⟩ := hcontra
    dsimp at h1 h2
    omega

/-- What membership in `moves` gives: the mover is a live indexed piece of
`player`, the move leaves its square, and the destination passed the
occupancy test. -/
theorem moves_elim {s : JState} {player : Nat} {m : Move} (hm : m ∈ moves s player) :
    ∃ p, p < 8 ∧ pget s.pieces player p = some m.1 ∧ m.1 ≠ m.2 ∧
      (bget s.board m.2.1 m.2.2 = none ∨
        ∃ pl2 pc2, bget s.board m.2.1 m.2.2 = some (pl2, pc2) ∧ pl2 ≠ player ∧
          can_beat p pc2 m.1 m.2 = true) := by
  unfold moves at hm
  rw [List.mem_flatMap] at hm
  obtain ⟨p, hp, hmem⟩ := hm
  rw [List.mem_range] at hp
  rcases hpg : pget s.pieces player p with _ | pos
  · rw [hpg] at hmem
    exact absurd hmem (by simp)
  · rw [hpg] at hmem
    dsimp only at hmem
    rw [List.mem_filterMap] at hmem
    obtain ⟨dir, hdir, hcand⟩ := hmem
    obtain ⟨h1, h2, h3⟩ := moveCand_some hdir hcand
    exact ⟨p, hp, h1 ▸ hpg, h2, h3⟩

/-! ## Claim C10: a pass flips the turn and nothing else -/

/-- C10: applying a pass (`do_move` with `None`) flips `curplayer` and
changes nothing else — board, both rank indexes, the passivity counter and
the winner flag are untouched; in particular a pass does not advance the
passivity counter. -/
theorem claim_C10 (s : JState) :
    (do_move s none).curplayer = 1 - s.curplayer ∧
    (do_move s none).board = s.board ∧
    (do_move s none).pieces = s.pieces ∧
    (do_move s none).peace_counter = s.peace_counter ∧
    (do_move s none).winner = s.winner :=
  ⟨rfl, rfl, rfl, rfl, rfl⟩

/-! ## Dimension preservation and derived invariant components -/

/-- A table write keeps the outer length. -/
theorem tset_length (t : List (List (Option α))) (i j : Nat) (v : Option α) :
    (tset t i j v).length = t.length := by
  unfold tset
  exact List.length_set t i _

/-- A table write keeps every row's length. -/
theorem tset_rows_length (t : List (List (Option α))) (i j : Nat) (v : Option α) (n : Nat)
    (hrows : ∀ r ∈ t, r.length = n) : ∀ r ∈ tset t i j v, r.length = n := by
  intro r hr
  unfold tset at hr
  by_cases hi : i < t.length
  · rcases List.mem_or_eq_of_mem_set hr with h | h
    · exact hrows r h
    · subst h
      rw [List.length_set]
      refine hrows _ ?_
      rw [List.getD_eq_getElem?_getD, List.getElem?_eq_getElem hi]
      exact List.getElem_mem _
  · push_neg at hi
    rw [set_oob _ _ _ hi] at hr
    exact hrows r hr

/-- A board write keeps the board's dimensions. -/
theorem bset_dims {s : JState} (hbd : BoardDims s) (x y : Int) (v : Option Piece) :
    (bset s.board x y v).length = 9 ∧ ∀ r ∈ bset s.board x y v, r.length = 7 := by
  unfold bset
  by_cases hg : 0 ≤ x ∧ 0 ≤ y
  · rw [if_pos hg]
    exact ⟨by rw [tset_length]; exact hbd.1, tset_rows_length _ _ _ _ _ hbd.2⟩
  · rw [if_neg hg]
    exact hbd

/-- Each player's live-piece count is at most 8 (one slot per rank). -/
theorem liveCount_le {s : JState} (hpd : PiecesDims s) (pl : Nat) : liveCount s pl ≤ 8 := by
  unfold liveCount
  by_cases hpl : pl < s.pieces.length
  · have hrow : s.pieces.getD pl [] ∈ s.pieces := by
      rw [List.getD_eq_getElem?_getD, List.getElem?_eq_getElem hpl]
      exact List.getElem_mem _
    calc ((s.pieces.getD pl []).filterMap id).length
        ≤ (s.pieces.getD pl []).length := List.length_filterMap_le _ _
      _ = 8 := hpd.2 _ hrow
  · push_neg at hpl
    rw [List.getD_eq_default _ _ hpl]
    simp

/-- No two live pieces share a square, a consequence of direction A. -/
theorem posInjective_of {s : JState} (hpd : PiecesDims s) (hA : ConsistentA s) :
    PosInjective s := by
  intro pl r pl2 r2 pos h1 h2
  have e1 := bget_of_pget hpd hA h1
  have e2 := bget_of_pget hpd hA h2
  rw [e1] at e2
  injection e2 with e3
  rw [Prod.mk.injEq] at e3
  exact e3

/-- The invariant only reads the board and the rank index. -/
theorem stateInv_congr {s2 s3 : JState} (hb : s2.board = s3.board)
    (hp : s2.pieces = s3.pieces) (h : StateInv s2) : StateInv s3 := by
  obtain ⟨hA, hB, hl, hi⟩ := h
  refine ⟨?_, ?_, ?_, ?_⟩
  · intro pl hpl r hr pos hpos
    rw [← hp] at hpos
    rw [← hb]
    exact hA pl hpl r hr pos hpos
  · intro xn hx yn hy pl r hcell
    rw [← hb] at hcell
    rw [← hp]
    exact hB xn hx yn hy pl r hcell
  · intro pl
    have := hl pl
    unfold liveCount at this ⊢
    rw [← hp]
    exact this
  · intro pl r pl2 r2 pos h1 h2
    rw [← hp] at h1 h2
    exact hi pl r pl2 r2 pos h1 h2

/-! ## River membership arithmetic and leap destination bounds -/

/-- Membership in the river-cell set, coordinate for coordinate. -/
theorem mem_ponds_iff (qx qy : Int) : ((qx, qy) : Pos) ∈ ponds ↔
    ((qx = 1 ∨ qx = 2 ∨ qx = 4 ∨ qx = 5) ∧ (qy = 3 ∨ qy = 4 ∨ qy = 5)) := by
  unfold ponds
  simp [Prod.ext_iff]
  omega

/-- A tiger/lion leap launched from a land square lands on the board:
the origin is on the near bank, so stretching the step by 3 (horizontal)
or 4 (vertical) lands on the far bank, inside the 7 by 9 grid. -/
theorem leap_dest_onboard {x y dx dy : Int} (hdir : ((dx, dy) : Int × Int) ∈ dirs)
    (hnp : ((x, y) : Pos) ∉ ponds) (hp : ((x + dx, y + dy) : Pos) ∈ ponds) :
    OnBoard (x + leapDx dx) (y + leapDy dy) := by
  rw [mem_ponds_iff] at hp
  rw [mem_ponds_iff] at hnp
  fin_cases hdir <;> simp [leapDx, leapDy, OnBoard] <;> omega

/-- Every legal move's destination square is on the board, provided the
mover's tiger and lion stand on land (leap destinations are recomputed
without a bounds re-check in the source; this is the fact that keeps them
in range). -/
theorem moves_dest_onboard {s : JState} {player : Nat} {m : Move}
    (hcat : TigerLionOnLand s player) (hm : m ∈ moves s player) :
    OnBoard m.2.1 m.2.2 := by
  unfold moves at hm
  rw [List.mem_flatMap] at hm
  obtain ⟨p, hp, hmem⟩ := hm
  rcases hpg : pget s.pieces player p with _ | pos
  · rw [hpg] at hmem
    exact absurd hmem (by simp)
  · rw [hpg] at hmem
    dsimp only at hmem
    rw [List.mem_filterMap] at hmem
    obtain ⟨dir, hdir, hcand⟩ := hmem
    unfold moveCand at hcand
    split_ifs at hcand with hbound hden hpond hrank hcats hblock
    · -- tiger/lion leap
      obtain ⟨heq, _⟩ := okDest_some hcand
      subst heq
      obtain ⟨px, py⟩ := pos
      obtain ⟨dx, dy⟩ := dir
      dsimp only at hbound hpond ⊢
      have hnotpond : ((px, py) : Pos) ∉ ponds := by
        rcases hcats with h5 | h6
        · exact hcat.1 (px, py) (h5 ▸ hpg)
        · exact hcat.2 (px, py) (h6 ▸ hpg)
      exact leap_dest_onboard hdir hnotpond hpond
    · -- rat entering the river
      obtain ⟨heq, _⟩ := okDest_some hcand
      subst heq
      unfold OnBoard
      unfold MX MY at hbound
      dsimp only
      omega
    · -- ordinary step
      obtain ⟨heq, _⟩ := okDest_some hcand
      subst heq
      unfold OnBoard
      unfold MX MY at hbound
      dsimp only
      omega

/-- Board reads at natural-number coordinates are plain table reads. -/
theorem bget_natCast (b : List (List (Option Piece))) (xn yn : Nat) :
    bget b (xn : Int) (yn : Int) = tget b yn xn := by
  unfold bget
  rw [if_pos ⟨Int.natCast_nonneg xn, Int.natCast_nonneg yn⟩,
    Int.toNat_natCast, Int.toNat_natCast]

/-- The state invariant survives the search's inline apply of any legal
move (and hence `do_move`'s identical mutation). -/
theorem stateInv_searchApply (s : JState) (player : Nat) (m : Move)
    (hWF : WF s) (hcat : TigerLionOnLand s player) (hm : m ∈ moves s player) :
    StateInv (searchApply s m).1 ∧ BoardDims (searchApply s m).1 ∧
      PiecesDims (searchApply s m).1 := by
  obtain ⟨hbd, hpd, hA, hB⟩ := hWF
  obtain ⟨p, hp8, hpg, hne, hocc⟩ := moves_elim hm
  have hdob := moves_dest_onboard hcat hm
  obtain ⟨⟨a, b⟩, ⟨c, d⟩⟩ := m
  dsimp only at hpg hne hocc hdob
  have hb1 : bget s.board a b = some (player, p) := bget_of_pget hpd hA hpg
  have hplayer2 : player < 2 := (pget_some_bounds hpd hpg).1
  obtain ⟨ha0, hb0, hby, hbx⟩ := bget_some_lt hb1
  obtain ⟨hc0, hc7, hd0, hd9⟩ := hdob
  -- in-range data for the destination square
  have hdy : d.toNat < s.board.length := by
    rw [hbd.1]
    omega
  have hrowmem : ∀ i, i < s.board.length → s.board.getD i [] ∈ s.board := by
    intro i hi
    rw [List.getD_eq_getElem?_getD, List.getElem?_eq_getElem hi]
    exact List.getElem_mem _
  have hdx : c.toNat < (s.board.getD d.toNat []).length := by
    rw [hbd.2 _ (hrowmem _ hdy)]
    omega
  -- in-range data for the rank index
  have hplen : s.pieces.length = 2 := hpd.1
  have hprowmem : ∀ pl, pl < 2 → (s.pieces.getD pl []).length = 8 := by
    intro pl hpl
    refine hpd.2 _ ?_
    rw [List.getD_eq_getElem?_getD, List.getElem?_eq_getElem (by omega : pl < s.pieces.length)]
    exact List.getElem_mem _
  -- facts about the post-move board, the same in both capture cases
  have hB2a : bget (bset (bset s.board c d (some (player, p))) a b none) a b = none := by
    have hdims2 := bset_dims (s := s) hbd c d (some (player, p))
    refine bget_bset_self _ a b none ha0 hb0 ?_ ?_
    · rw [hdims2.1]
      rw [hbd.1] at hby
      exact hby
    · have h7 : ((bset s.board c d (some (player, p))).getD b.toNat []).length = 7 := by
        refine hdims2.2 _ ?_
        rw [List.getD_eq_getElem?_getD,
          List.getElem?_eq_getElem (by rw [hdims2.1]; rw [hbd.1] at hby; exact hby :
            b.toNat < (bset s.board c d (some (player, p))).length)]
        exact List.getElem_mem _
      rw [h7]
      rw [hbd.2 _ (hrowmem _ hby)] at hbx
      exact hbx
  have hB2c : bget (bset (bset s.board c d (some (player, p))) a b none) c d =
      some (player, p) := by
    rw [bget_bset_ne _ a b c d none hne]
    exact bget_bset_self _ c d _ hc0 hd0 hdy hdx
  have hB2other : ∀ x y, ¬((x, y) : Pos) = (a, b) → ¬((x, y) : Pos) = (c, d) →
      bget (bset (bset s.board c d (some (player, p))) a b none) x y =
        bget s.board x y := by
    intro x y hxa hxc
    rw [bget_bset_ne _ a b x y none (fun hc => hxa hc.symm),
      bget_bset_ne _ c d x y _ (fun hc => hxc hc.symm)]
  rcases hocc with hdest | ⟨pl2, pc2, hdest, hpl2, hcb⟩
  · -- no capture
    have happly : (searchApply s ((a, b), (c, d))).1 =
        { s with
            pieces := pset s.pieces player p (some (c, d)),
            peace_counter := s.peace_counter + 1,
            board := bset (bset s.board c d (some (player, p))) a b none } := by
      unfold searchApply
      dsimp only
      rw [hb1, hdest]
    rw [happly]
    -- index facts
    have hP2self : pget (pset s.pieces player p (some (c, d))) player p = some (c, d) := by
      unfold pget pset
      refine tget_tset_self _ _ _ _ (by omega) ?_
      rw [hprowmem player hplayer2]
      omega
    have hP2other : ∀ pl' r', ¬(pl' = player ∧ r' = p) →
        pget (pset s.pieces player p (some (c, d))) pl' r' = pget s.pieces pl' r' := by
      intro pl' r' hne2
      unfold pget pset
      exact tget_tset_ne _ _ _ _ _ _ (fun hc => hne2 ⟨hc.1.symm, hc.2.symm⟩)
    have hpdims2 : PiecesDims { s with
        pieces := pset s.pieces player p (some (c, d)),
        peace_counter := s.peace_counter + 1,
        board := bset (bset s.board c d (some (player, p))) a b none } := by
      refine ⟨?_, ?_⟩
      · dsimp only
        unfold pset
        rw [tset_length]
        exact hplen
      · dsimp only
        unfold pset
        exact tset_rows_length _ _ _ _ _ hpd.2
    have hbdims2 : BoardDims { s with
        pieces := pset s.pieces player p (some (c, d)),
        peace_counter := s.peace_counter + 1,
        board := bset (bset s.board c d (some (player, p))) a b none } := by
      constructor
      · dsimp only
        have h1 := (bset_dims (s := { s with board := bset s.board c d (some (player, p)) })
          (by exact bset_dims (s := s) hbd c d _) a b none).1
        exact h1
      · dsimp only
        exact (bset_dims (s := { s with board := bset s.board c d (some (player, p)) })
          (bset_dims (s := s) hbd c d _) a b none).2
    have hA2 : ConsistentA { s with
        pieces := pset s.pieces player p (some (c, d)),
        peace_counter := s.peace_counter + 1,
        board := bset (bset s.board c d (some (player, p))) a b none } := by
      intro pl' hpl' r' hr' pos hpos
      dsimp only at hpos ⊢
      by_cases hsame : pl' = player ∧ r' = p
      · obtain ⟨h1, h2⟩ := hsame
        subst h1
        subst h2
        rw [hP2self] at hpos
        injection hpos with h3
        rw [← h3]
        exact hB2c
      · rw [hP2other _ _ hsame] at hpos
        have horig := bget_of_pget hpd hA hpos
        have hposa : ¬pos = ((a, b) : Pos) := by
          intro hcontra
          rw [hcontra] at horig
          rw [horig] at hb1
          injection hb1 with h4
          rw [Prod.mk.injEq] at h4
          exact hsame ⟨h4.1, h4.2⟩
        have hposc : ¬pos = ((c, d) : Pos) := by
          intro hcontra
          rw [hcontra] at horig
          rw [horig] at hdest
          exact absurd hdest (by simp)
        obtain ⟨px, py⟩ := pos
        rw [hB2other px py hposa hposc]
        exact horig
    have hB2 : ConsistentB { s with
        pieces := pset s.pieces player p (some (c, d)),
        peace_counter := s.peace_counter + 1,
        board := bset (bset s.board c d (some (player, p))) a b none } := by
      intro xn hx7 yn hy9 pl' r' hcell
      dsimp only at hcell ⊢
      have hcell2 : bget (bset (bset s.board c d (some (player, p))) a b none)
          (xn : Int) (yn : Int) = some (pl', r') := by
        rw [bget_natCast]
        exact hcell
      by_cases hca : ((xn : Int), (yn : Int)) = ((a, b) : Pos)
      · rw [Prod.mk.injEq] at hca
        rw [hca.1, hca.2] at hcell2
        rw [hB2a] at hcell2
        exact absurd hcell2 (by simp)
      · by_cases hcc : ((xn : Int), (yn : Int)) = ((c, d) : Pos)
        · rw [Prod.mk.injEq] at hcc
          rw [hcc.1, hcc.2] at hcell2
          rw [hB2c] at hcell2
          injection hcell2 with h4
          rw [Prod.mk.injEq] at h4
          obtain ⟨h5, h6⟩ := h4
          subst h5
          subst h6
          rw [hcc.1, hcc.2]
          exact hP2self
        · rw [hB2other _ _ hca hcc] at hcell2
          have hidx := pget_of_bget hbd hB hcell2
          have hne3 : ¬(pl' = player ∧ r' = p) := by
            rintro ⟨h5, h6⟩
            subst h5
            subst h6
            rw [hidx] at hpg
            injection hpg with h7
            exact hca h7
          rw [hP2other _ _ hne3]
          exact hidx
    refine ⟨⟨hA2, hB2, fun pl => liveCount_le hpdims2 pl, posInjective_of hpdims2 hA2⟩,
      hbdims2, hpdims2⟩
  · -- capture
    have hpg2 : pget s.pieces pl2 pc2 = some (c, d) := pget_of_bget hbd hB hdest
    have hpl2b : pl2 < 2 := (pget_some_bounds hpd hpg2).1
    have hpc2b : pc2 < 8 := (pget_some_bounds hpd hpg2).2
    have happly : (searchApply s ((a, b), (c, d))).1 =
        { s with
            pieces := pset (pset s.pieces pl2 pc2 none) player p (some (c, d)),
            peace_counter := 0,
            board := bset (bset s.board c d (some (player, p))) a b none } := by
      unfold searchApply
      dsimp only
      rw [hb1, hdest]
    rw [happly]
    have hnotsame : ¬(player = pl2 ∧ p = pc2) := fun hc => hpl2 hc.1.symm
    have hP1rows : (pset s.pieces pl2 pc2 none).length = 2 := by
      unfold pset
      rw [tset_length]
      exact hplen
    have hP1rowlen : ∀ pl, pl < 2 → ((pset s.pieces pl2 pc2 none).getD pl []).length = 8 := by
      intro pl hpl
      unfold pset
      refine tset_rows_length s.pieces pl2 pc2 none 8 hpd.2 _ ?_
      rw [List.getD_eq_getElem?_getD,
        List.getElem?_eq_getElem (by rw [tset_length]; omega :
          pl < (tset s.pieces pl2 pc2 none).length)]
      exact List.getElem_mem _
    have hP2self : pget (pset (pset s.pieces pl2 pc2 none) player p (some (c, d)))
        player p = some (c, d) := by
      unfold pget pset
      refine tget_tset_self _ _ _ _ (by rw [← hplen] at hplayer2; rw [tset_length]; exact hplayer2) ?_
      have := hP1rowlen player hplayer2
      unfold pset at this
      rw [this]
      omega
    have hP2cap : pget (pset (pset s.pieces pl2 pc2 none) player p (some (c, d)))
        pl2 pc2 = none := by
      unfold pget pset
      rw [tget_tset_ne _ player p pl2 pc2 _ hnotsame]
      refine tget_tset_self _ _ _ _ (by omega) ?_
      rw [hprowmem pl2 hpl2b]
      omega
    have hP2other : ∀ pl' r', ¬(pl' = player ∧ r' = p) → ¬(pl' = pl2 ∧ r' = pc2) →
        pget (pset (pset s.pieces pl2 pc2 none) player p (some (c, d))) pl' r' =
          pget s.pieces pl' r' := by
      intro pl' r' h1 h2
      unfold pget pset
      rw [tget_tset_ne _ _ _ _ _ _ (fun hc => h1 ⟨hc.1.symm, hc.2.symm⟩),
        tget_tset_ne _ _ _ _ _ _ (fun hc => h2 ⟨hc.1.symm, hc.2.symm⟩)]
    have hpdims2 : PiecesDims { s with
        pieces := pset (pset s.pieces pl2 pc2 none) player p (some (c, d)),
        peace_counter := 0,
        board := bset (bset s.board c d (some (player, p))) a b none } := by
      refine ⟨?_, ?_⟩
      · dsimp only
        unfold pset
        rw [tset_length, tset_length]
        exact hplen
      · dsimp only
        unfold pset
        exact tset_rows_length _ _ _ _ _ (tset_rows_length _ _ _ _ _ hpd.2)
    have hbdims2 : BoardDims { s with
        pieces := pset (pset s.pieces pl2 pc2 none) player p (some (c, d)),
        peace_counter := 0,
        board := bset (bset s.board c d (some (player, p))) a b none } := by
      constructor
      · dsimp only
        exact (bset_dims (s := { s with board := bset s.board c d (some (player, p)) })
          (bset_dims (s := s) hbd c d _) a b none).1
      · dsimp only
        exact (bset_dims (s := { s with board := bset s.board c d (some (player, p)) })
          (bset_dims (s := s) hbd c d _) a b none).2
    have hA2 : ConsistentA { s with
        pieces := pset (pset s.pieces pl2 pc2 none) player p (some (c, d)),
        peace_counter := 0,
        board := bset (bset s.board c d (some (player, p))) a b none } := by
      intro pl' hpl' r' hr' pos hpos
      dsimp only at hpos ⊢
      by_cases hsame : pl' = player ∧ r' = p
      · obtain ⟨h1, h2⟩ := hsame
        subst h1
        subst h2
        rw [hP2self] at hpos
        injection hpos with h3
        rw [← h3]
        exact hB2c
      · by_cases hcap : pl' = pl2 ∧ r' = pc2
        · obtain ⟨h1, h2⟩ := hcap
          subst h1
          subst h2
          rw [hP2cap] at hpos
          exact absurd hpos (by simp)
        · rw [hP2other _ _ hsame hcap] at hpos
          have horig := bget_of_pget hpd hA hpos
          have hposa : ¬pos = ((a, b) : Pos) := by
            intro hcontra
            rw [hcontra] at horig
            rw [horig] at hb1
            injection hb1 with h4
            rw [Prod.mk.injEq] at h4
            exact hsame ⟨h4.1, h4.2⟩
          have hposc : ¬pos = ((c, d) : Pos) := by
            intro hcontra
            rw [hcontra] at horig
            rw [horig] at hdest
            injection hdest with h4
            rw [Prod.mk.injEq] at h4
            exact hcap ⟨h4.1, h4.2⟩
          obtain ⟨px, py⟩ := pos
          rw [hB2other px py hposa hposc]
          exact horig
    have hB2' : ConsistentB { s with
        pieces := pset (pset s.pieces pl2 pc2 none) player p (some (c, d)),
        peace_counter := 0,
        board := bset (bset s.board c d (some (player, p))) a b none } := by
      intro xn hx7 yn hy9 pl' r' hcell
      dsimp only at hcell ⊢
      have hcell2 : bget (bset (bset s.board c d (some (player, p))) a b none)
          (xn : Int) (yn : Int) = some (pl', r') := by
        rw [bget_natCast]
        exact hcell
      by_cases hca : ((xn : Int), (yn : Int)) = ((a, b) : Pos)
      · rw [Prod.mk.injEq] at hca
        rw [hca.1, hca.2] at hcell2
        rw [hB2a] at hcell2
        exact absurd hcell2 (by simp)
      · by_cases hcc : ((xn : Int), (yn : Int)) = ((c, d) : Pos)
        · rw [Prod.mk.injEq] at hcc
          rw [hcc.1, hcc.2] at hcell2
          rw [hB2c] at hcell2
          injection hcell2 with h4
          rw [Prod.mk.injEq] at h4
          obtain ⟨h5, h6⟩ := h4
          subst h5
          subst h6
          rw [hcc.1, hcc.2]
          exact hP2self
        · rw [hB2other _ _ hca hcc] at hcell2
          have hidx := pget_of_bget hbd hB hcell2
          have hne3 : ¬(pl' = player ∧ r' = p) := by
            rintro ⟨h5, h6⟩
            subst h5
            subst h6
            rw [hidx] at hpg
            injection hpg with h7
            exact hca h7
          have hne4 : ¬(pl' = pl2 ∧ r' = pc2) := by
            rintro ⟨h5, h6⟩
            subst h5
            subst h6
            rw [hidx] at hpg2
            injection hpg2 with h7
            exact hcc h7
          rw [hP2other _ _ hne3 hne4]
          exact hidx
    refine ⟨⟨hA2, hB2', fun pl => liveCount_le hpdims2 pl, posInjective_of hpdims2 hA2⟩,
      hbdims2, hpdims2⟩

/-! ## Claim C1: the search's inline apply/undo is an exact round trip -/

/-- The inline affect block followed by the inline undo block restores the
state exactly (helper carrying the full proof; claims C1 and C4 both rest
on it). -/
theorem apply_undo_id (s : JState) (player : Nat) (m : Move)
    (hWF : WF s) (hm : m ∈ moves s player) :
    searchUndo (searchApply s m).1 m (searchApply s m).2 = s := by
  obtain ⟨hbd, hpd, hA, hB⟩ := hWF
  obtain ⟨p, hp, hpg, hne, hocc⟩ := moves_elim hm
  obtain ⟨⟨a, b⟩, ⟨c, d⟩⟩ := m
  dsimp only at hpg hne hocc
  have hb1 : bget s.board a b = some (player, p) := bget_of_pget hpd hA hpg
  obtain ⟨B, P, cp, pcount, w⟩ := s
  dsimp only at hb1 hpg hocc
  rcases hocc with hdest | ⟨pl2, pc2, hdest, hpl2, hcb⟩
  · -- no capture
    unfold searchApply
    dsimp only
    rw [hb1, hdest]
    dsimp only
    unfold searchUndo
    dsimp only
    simp only [Bool.false_eq_true, if_false, JState.mk.injEq]
    refine ⟨?_, ?_, trivial, by omega, trivial⟩
    · rw [bset_bset_same, bset_comm _ a b c d _ _ hne, bset_bset_same]
      rw [show bset B c d none = B from by rw [← hdest]; exact bset_bget_self B c d]
      rw [show bset B a b (some (player, p)) = B from by
        rw [← hb1]; exact bset_bget_self B a b]
    · unfold pset
      rw [tset_tset_same]
      rw [← hpg]
      exact tset_tget_self P player p
  · -- capture
    unfold searchApply
    dsimp only
    rw [hb1, hdest]
    dsimp only
    unfold searchUndo
    dsimp only
    simp only [if_true, JState.mk.injEq]
    have hpg2 : pget P pl2 pc2 = some (c, d) :=
      pget_of_bget (s := ⟨B, P, cp, pcount, w⟩) hbd hB hdest
    refine ⟨?_, ?_, trivial, trivial, trivial⟩
    · rw [bset_bset_same, bset_comm _ a b c d _ _ hne, bset_bset_same]
      rw [show bset B c d (some (pl2, pc2)) = B from by
        rw [← hdest]; exact bset_bget_self B c d]
      rw [show bset B a b (some (player, p)) = B from by
        rw [← hb1]; exact bset_bget_self B a b]
    · unfold pset
      rw [tset_comm _ player p pl2 pc2 _ _ (fun hc => hpl2 hc.1.symm)]
      rw [tset_tset_same, tset_tset_same]
      rw [show tset P pl2 pc2 (some (c, d)) = P from by
        rw [← hpg2]; exact tset_tget_self P pl2 pc2]
      rw [← hpg]
      exact tset_tget_self P player p

/-- C1: for any state satisfying the board/index invariant (which holds on
every reachable state) and any move of the legal-move list of either side,
the search's inline affect block followed by its inline undo block restores
the state exactly — board, both rank indexes, passivity counter (and the
untouched `curplayer` and `winner`) are all equal to their values before
the apply. -/
theorem claim_C1 (s : JState) (player : Nat) (m : Move)
    (hWF : WF s) (hm : m ∈ moves s player) :
    searchUndo (searchApply s m).1 m (searchApply s m).2 = s :=
  apply_undo_id s player m hWF hm

/-- C1 witness: the initial position and player 0's rat step `(6,6) → (6,7)`. -/
theorem claim_C1_witness :
    (WF initState ∧ (((6, 6), (6, 7)) : Move) ∈ moves initState 0) ∧
    searchUndo (searchApply initState ((6, 6), (6, 7))).1 ((6, 6), (6, 7))
      (searchApply initState ((6, 6), (6, 7))).2 = initState :=
  ⟨⟨by decide, by decide⟩, claim_C1 initState 0 ((6, 6), (6, 7)) (by decide) (by decide)⟩

/-! ## Claim C4: the two state views stay consistent -/

/-- `do_move` performs exactly the search's inline mutation, plus the turn
flip (the source texts of the two blocks are statement-for-statement the
same). -/
theorem do_move_eq_searchApply (s : JState) (m : Move) :
    do_move s (some m) = { (searchApply s m).1 with curplayer := 1 - s.curplayer } := by
  obtain ⟨⟨a, b⟩, ⟨c, d⟩⟩ := m
  unfold do_move searchApply
  dsimp only
  rcases h1 : bget s.board a b with _ | ⟨pl, pc⟩
  · rfl
  · rcases h2 : bget s.board c d with _ | ⟨pl2, pc2⟩
    · rfl
    · rfl

/-- Well-formedness gives the full claim-C4 invariant on the spot. -/
theorem stateInv_of_WF {s : JState} (hWF : WF s) : StateInv s :=
  ⟨hWF.2.2.1, hWF.2.2.2, fun pl => liveCount_le hWF.2.1 pl,
    posInjective_of hWF.2.1 hWF.2.2.1⟩

/-- C4: after applying any legal move — in real play via `do_move` or via
the search's inline affect block — and after the inline undo, the two state
views stay consistent: every live indexed piece sits on its board square
and conversely, each owner keeps at most 8 live pieces, and no two live
pieces share a square. -/
theorem claim_C4 (s : JState) (player : Nat) (m : Move)
    (hWF : WF s) (hcat : TigerLionOnLand s player) (hm : m ∈ moves s player) :
    StateInv (searchApply s m).1 ∧ StateInv (do_move s (some m)) ∧
      StateInv (searchUndo (searchApply s m).1 m (searchApply s m).2) := by
  have h1 := stateInv_searchApply s player m hWF hcat hm
  refine ⟨h1.1, ?_, ?_⟩
  · refine @stateInv_congr (searchApply s m).1 (do_move s (some m)) ?_ ?_ h1.1
    · rw [do_move_eq_searchApply]
    · rw [do_move_eq_searchApply]
  · rw [apply_undo_id s player m hWF hm]
    exact stateInv_of_WF hWF

/-- C4 witness: the initial position and player 0's rat capture-free step
`(6,6) → (6,5)`. -/
theorem claim_C4_witness :
    (WF initState ∧ TigerLionOnLand initState 0 ∧
      (((6, 6), (6, 5)) : Move) ∈ moves initState 0) ∧
    (StateInv (searchApply initState ((6, 6), (6, 5))).1 ∧
      StateInv (do_move initState (some ((6, 6), (6, 5)))) ∧
      StateInv (searchUndo (searchApply initState ((6, 6), (6, 5))).1 ((6, 6), (6, 5))
        (searchApply initState ((6, 6), (6, 5))).2)) :=
  ⟨⟨by decide, by decide, by decide⟩,
    claim_C4 initState 0 ((6, 6), (6, 5)) (by decide) (by decide) (by decide)⟩

/-! ## Claim C5: trap neutralization (corrected) -/

/-- C5 counterexample: the claim says `can_beat(elephant, rat, nonRiverPos,
trapPos)` is true; at attacker square `(0,0)` (not a river cell) and
defender square `(2,0)` (a trap) it is false, because the elephant-cannot-
take-rat clause precedes the trap clause. -/
theorem claim_C5_counterexample :
    ((0, 0) : Pos) ∉ ponds ∧ ((2, 0) : Pos) ∈ traps ∧
    can_beat elephant rat (0, 0) (2, 0) = false := by decide

/-- C5 (amended): with the attacker off the river and the defender on a trap
cell, `can_beat` is true for every rank pair EXCEPT the elephant attacking
the rat, which stays false (the elephant-vs-rat clause fires before the trap
clause). -/
theorem claim_C5 (p1 p2 : Nat) (pos1 pos2 : Pos)
    (h1 : pos1 ∉ ponds) (h2 : pos2 ∈ traps) :
    can_beat p1 p2 pos1 pos2 = true ↔ ¬(p1 = elephant ∧ p2 = rat) := by
  rw [can_beat]
  rw [if_neg (by simp [h1]), if_neg (by simpa using h1), if_pos h2]
  split_ifs with hre her hle <;> simp_all [rat, elephant]

/-- C5 witness: a dog attacking a lion on the trap `(2,0)` from `(0,0)`. -/
theorem claim_C5_witness :
    (((0, 0) : Pos) ∉ ponds ∧ ((2, 0) : Pos) ∈ traps) ∧
    (can_beat dog lion (0, 0) (2, 0) = true ↔ ¬(dog = elephant ∧ lion = rat)) :=
  ⟨by decide, claim_C5 dog lion (0, 0) (2, 0) (by decide) (by decide)⟩

/-! ## Claim C6: river-leap rat blocking (corrected) -/

/-- C6 counterexample: in `ownRatState` player 1 has no rat at all, yet
player 0's lion's vertical leap from `(1,2)` (single step into the river
cell `(1,3)`, landing square `(1,6)` empty) is rejected — the blocking test
also fires on the leaping player's OWN rat at `(1,4)`. -/
theorem claim_C6_counterexample :
    pget ownRatState.pieces 1 rat = none ∧
    ((1, 3) : Pos) ∈ ponds ∧ bget ownRatState.board 1 6 = none ∧
    rat_is_blocking ownRatState 0 (1, 2) 0 4 = true ∧
    (((1, 2), (1, 6)) : Move) ∉ moves ownRatState 0 := by decide

/-- C6 (amended): a tiger/lion river leap is rejected at the rat-blocking
check exactly when a rat of EITHER player (the source loops over
`pieces[1-player] for player in [0,1]`, so the leaping side's own rat
blocks too) sits on a river cell in the leap's path: for a vertical leap a
river cell sharing the origin's `x`, for a horizontal leap a river cell
with the origin's `y` whose x-distance to both the origin `x` and the
destination `x + dx` is at most 2. -/
theorem claim_C6 (s : JState) (player : Nat) (x y dx dy : Int) :
    rat_is_blocking s player (x, y) dx dy = true ↔
      ∃ pl rx ry, pl ≤ 1 ∧ pget s.pieces pl rat = some (rx, ry) ∧
        ((rx, ry) : Pos) ∈ ponds ∧
        ((dy ≠ 0 ∧ x = rx) ∨
         (dx ≠ 0 ∧ y = ry ∧ (x - rx).natAbs ≤ 2 ∧ (x + dx - rx).natAbs ≤ 2)) := by
  rw [rat_is_blocking]
  simp only [List.any_eq_true, List.mem_cons, List.mem_singleton, List.not_mem_nil, or_false]
  constructor
  · rintro ⟨q, hq, hcond⟩
    refine ⟨1 - q, ?_⟩
    rcases hpg : pget s.pieces (1 - q) rat with _ | rxy
    · rw [hpg] at hcond
      exact absurd hcond (by simp)
    · obtain ⟨rx, ry⟩ := rxy
      rw [hpg] at hcond
      dsimp only at hcond
      refine ⟨rx, ry, by omega, rfl, ?_, ?_⟩
      · by_contra hpond
        rw [if_neg hpond] at hcond
        exact absurd hcond (by simp)
      · by_cases hpond : ((rx, ry) : Pos) ∈ ponds
        · rw [if_pos hpond] at hcond
          exact of_decide_eq_true hcond
        · rw [if_neg hpond] at hcond
          exact absurd hcond (by simp)
  · rintro ⟨pl, rx, ry, hpl, hpg, hpond, hgeom⟩
    refine ⟨1 - pl, by omega, ?_⟩
    have h1 : 1 - (1 - pl) = pl := by omega
    rw [h1, hpg]
    dsimp only
    rw [if_pos hpond]
    exact decide_eq_true hgeom

/-! ## Claim C9: rollout move selection (code bug) -/

/-- C9: with two root candidates scored 0 and 1 rollout wins, the list
`Player.loop` hands to `random.choice` is BOTH moves, not just the
maximal-score one — `max_move` is never reset when a strictly better score
appears, so a dominated move can be chosen. -/
theorem claim_C9_bug :
    max_move_list [(((0, 0), (0, 1)), 0), (((1, 1), (1, 2)), 1)] =
      [((0, 0), (0, 1)), ((1, 1), (1, 2))] ∧
    (((0, 0), (0, 1)) : Move) ≠ ((1, 1), (1, 2)) := by decide

/-! ## Claim C2: terminal utility sign (code bug) -/

/-- C2: in `wonState` player 1 has no pieces, so player 0 has won
(`victory` records winner 0), yet the search returns `-inf` — `utility`
compares the boolean `victory(...)` against 0, so every terminal node gets
`-inf` regardless of who won (the claim, and the spec's §4.5, say `+inf`
here). -/
theorem claim_C2_bug :
    (victory wonState 0).1 = true ∧ (victory wonState 0).2.winner = some 0 ∧
    max_alpha_beta wonState JVal.negInf JVal.posInf 0 =
      (JVal.negInf, some 0, some 0, some 0, some 0) := by
  refine ⟨by decide, by decide, ?_⟩
  show max_alpha_betaF (5 + 1) wonState JVal.negInf JVal.posInf 0 = _
  rw [max_alpha_betaF_succ]
  decide

/-! ## Claim C3: empty-move-list pass in the search (code bug) -/

/-- C3: `stuckState` is non-terminal, below the cutoff at depth 3, and
player 0 has no legal move, yet `max_alpha_beta` returns `-inf` with no
coordinates and never recurses — the claimed pass recursion would give the
minimizer's value one ply deeper, `heur = 5`. The guard `mov != [None]` is
true even for an empty move list, so the pass branch is dead code. -/
theorem claim_C3_bug :
    moves stuckState 0 = [] ∧ (victory stuckState 0).1 = false ∧
    cut_off_tests 3 = false ∧
    max_alpha_beta stuckState JVal.negInf JVal.posInf 3 =
      (JVal.negInf, none, none, none, none) ∧
    min_alpha_beta stuckState JVal.negInf JVal.posInf 4 =
      (JVal.num 5, some 0, some 0, some 0, some 0) := by
  refine ⟨by decide, by decide, by decide, ?_, ?_⟩
  · show max_alpha_betaF (2 + 1) stuckState JVal.negInf JVal.posInf 3 = _
    rw [max_alpha_betaF_succ]
    rw [show moves stuckState 0 = [] from by decide]
    rw [if_neg (by decide), if_neg (by decide), if_pos (by decide), maxLoopF_nil]
  · show min_alpha_betaF (1 + 1) stuckState JVal.negInf JVal.posInf 4 = _
    rw [min_alpha_betaF_succ]
    decide

/-! ## Claim C7: the passivity-limit resolution -/

/-- An exclusively held rank yields the singleton owner list. -/
theorem psAt_excl {s : JState} {i pl : Nat} (h : exclusiveRank s i pl) :
    psAt s i = [pl] := by
  obtain ⟨hpl, hsome, hnone⟩ := h
  unfold psAt
  have hc : pl = 0 ∨ pl = 1 := by omega
  rcases hc with rfl | rfl
  · simp [List.filter, hsome, hnone]
  · have hnone0 : pget s.pieces 0 i = none := hnone
    simp [List.filter, hsome, hnone0]

/-- A rank held by both or neither player never yields a singleton list. -/
theorem psAt_not_excl {s : JState} {i : Nat} (h : ¬ someExclusive s i) :
    (psAt s i).length ≠ 1 := by
  by_cases h0 : (pget s.pieces 0 i).isSome <;> by_cases h1 : (pget s.pieces 1 i).isSome
  · unfold psAt
    simp [List.filter, h0, h1]
  · exact absurd ⟨0, by omega, h0, Option.not_isSome_iff_eq_none.mp h1⟩ h
  · exact absurd ⟨1, by omega, h1, Option.not_isSome_iff_eq_none.mp h0⟩ h
  · unfold psAt
    simp [List.filter, h0, h1]

/-- The scan skips a rank held by both or neither player. -/
theorem pcGo_cons_not {s : JState} {i : Nat} (rest : List Nat)
    (h : ¬ someExclusive s i) : pcGo s (i :: rest) = pcGo s rest := by
  rw [pcGo, if_neg (psAt_not_excl h)]

/-- The scan stops at an exclusively held rank and returns its owner. -/
theorem pcGo_cons_excl {s : JState} {i pl : Nat} (rest : List Nat)
    (h : exclusiveRank s i pl) : pcGo s (i :: rest) = some pl := by
  rw [pcGo, psAt_excl h]
  simp

/-- Scanning a strictly descending rank list finds the first exclusive
rank's owner. -/
theorem pcGo_find {s : JState} {pl : Nat} :
    ∀ L : List Nat, L.Pairwise (fun x y => y < x) → ∀ i, i ∈ L → exclusiveRank s i pl →
      (∀ j, i < j → ¬ someExclusive s j) → pcGo s L = some pl := by
  intro L
  induction L with
  | nil =>
    intro _ i hi
    exact absurd hi (by simp)
  | cons k rest ih =>
    intro hpair i hi hex hno
    rcases List.mem_cons.mp hi with rfl | hirest
    · exact pcGo_cons_excl rest hex
    · have hik : i < k := (List.pairwise_cons.mp hpair).1 i hirest
      rw [pcGo_cons_not rest (hno k hik)]
      exact ih (List.pairwise_cons.mp hpair).2 i hirest hex hno

/-- Scanning when no rank is exclusive returns nothing. -/
theorem pcGo_none {s : JState} :
    ∀ L : List Nat, (∀ j ∈ L, ¬ someExclusive s j) → pcGo s L = none := by
  intro L
  induction L with
  | nil =>
    intro _
    rfl
  | cons k rest ih =>
    intro h
    rw [pcGo_cons_not rest (h k (by simp))]
    exact ih fun j hj => h j (by simp [hj])

/-- With 8 rank slots per player, ranks 8 and above are never exclusive. -/
theorem not_someExclusive_high {s : JState} (hpd : PiecesDims s) {j : Nat}
    (hj : 8 ≤ j) : ¬ someExclusive s j := by
  rintro ⟨pl, hpl, hsome, _⟩
  obtain ⟨pos, hpos⟩ := Option.isSome_iff_exists.mp hsome
  have := (pget_some_bounds hpd hpos).2
  omega

/-- C7: in a state at the passivity limit where neither immediate win
condition for `player` holds, the terminal evaluator fires, and the winner
is the owner of the highest rank held by exactly one player — or player 0
when every rank is held by both players or by neither. -/
theorem claim_C7 (s : JState) (player : Nat)
    (hpd : PiecesDims s)
    (hpassive : MAXIMAL_PASSIVE ≤ s.peace_counter)
    (hpieces : liveCount s (1 - player) ≠ 0)
    (hden : bget s.board (dens.getD (1 - player) (0, 0)).1
      (dens.getD (1 - player) (0, 0)).2 = none) :
    (victory s player).1 = true ∧
    (∀ i pl, exclusiveRank s i pl → (∀ j, i < j → ¬ someExclusive s j) →
      (victory s player).2.winner = some pl) ∧
    ((∀ j, ¬ someExclusive s j) → (victory s player).2.winner = some 0) := by
  have hv : victory s player =
      (true, { s with winner := some ((pieces_comparison s).getD 0) }) := by
    unfold victory
    rw [if_neg hpieces, if_neg (by rw [hden]; simp), if_pos hpassive]
    rcases hpc : pieces_comparison s with _ | r
    · rfl
    · rfl
  refine ⟨by rw [hv], ?_, ?_⟩
  · intro i pl hex hno
    obtain ⟨pos, hpos⟩ := Option.isSome_iff_exists.mp hex.2.1
    have hi8 : i < 8 := (pget_some_bounds hpd hpos).2
    have hmem : i ∈ [7, 6, 5, 4, 3, 2, 1, 0] := by
      interval_cases i <;> decide
    have hpc : pieces_comparison s = some pl := by
      unfold pieces_comparison
      exact pcGo_find _ (by decide) i hmem hex hno
    rw [hv, hpc]
    rfl
  · intro hno
    have hpc : pieces_comparison s = none := by
      unfold pieces_comparison
      exact pcGo_none _ fun j _ => hno j
    rw [hv, hpc]
    rfl

/-- C7 witness: `passiveState` (only player 0's elephant and player 1's rat
remain, counter at 30): rank 7 is exclusively player 0's and the evaluator
resolves for player 0. -/
theorem claim_C7_witness :
    (PiecesDims passiveState ∧ MAXIMAL_PASSIVE ≤ passiveState.peace_counter ∧
      liveCount passiveState 1 ≠ 0 ∧
      bget passiveState.board (dens.getD 1 (0, 0)).1 (dens.getD 1 (0, 0)).2 = none ∧
      exclusiveRank passiveState 7 0) ∧
    ((victory passiveState 0).1 = true ∧
      (victory passiveState 0).2.winner = some 0) := by
  refine ⟨⟨by decide, by decide, by decide, by decide, by decide⟩, ?_, ?_⟩
  · exact (claim_C7 passiveState 0 (by decide) (by decide) (by decide) (by decide)).1
  · refine (claim_C7 passiveState 0 (by decide) (by decide) (by decide)
      (by decide)).2.1 7 0 (by decide) ?_
    intro j hj
    exact not_someExclusive_high (by decide) (by omega)

/-! ## Claim C8: the apply-move entry point (corrected) -/

/-- `do_move` never touches the winner flag. -/
theorem do_move_winner (s : JState) (m : Option Move) :
    (do_move s m).winner = s.winner := by
  unfold do_move
  rcases m with _ | ⟨⟨a, b⟩, ⟨c, d⟩⟩
  · rfl
  · dsimp only
    rcases h1 : bget s.board a b with _ | ⟨pl, pc⟩
    · rfl
    · rcases h2 : bget s.board c d with _ | ⟨pl2, pc2⟩
      · rfl
      · rfl

/-- A non-terminal `victory` check leaves the state untouched. -/
theorem victory_false_state {s : JState} {player : Nat}
    (h : (victory s player).1 = false) : (victory s player).2 = s := by
  unfold victory at h ⊢
  by_cases h1 : liveCount s (1 - player) = 0
  · rw [if_pos h1] at h
    exact absurd h (by simp)
  · rw [if_neg h1] at h ⊢
    by_cases h2 : (bget s.board (dens.getD (1 - player) (0, 0)).1
        (dens.getD (1 - player) (0, 0)).2).isSome = true
    · rw [if_pos h2] at h
      exact absurd h (by simp)
    · rw [if_neg h2] at h ⊢
      by_cases h3 : MAXIMAL_PASSIVE ≤ s.peace_counter
      · rw [if_pos h3] at h
        rcases hpc : pieces_comparison s with _ | r <;> rw [hpc] at h <;>
          exact absurd h (by simp)
      · rw [if_neg h3] at h ⊢

/-- The rank-comparison scan only ever names player 0 or player 1. -/
theorem pcGo_mem {s : JState} :
    ∀ (L : List Nat) (r : Nat), pcGo s L = some r → r = 0 ∨ r = 1 := by
  intro L
  induction L with
  | nil =>
    intro r h
    exact absurd h (by simp [pcGo])
  | cons k rest ih =>
    intro r h
    rw [pcGo] at h
    by_cases hc : (psAt s k).length = 1
    · rw [if_pos hc] at h
      injection h with h1
      have hmem : (psAt s k).getD 0 0 ∈ psAt s k := by
        rcases hps : psAt s k with _ | ⟨x, rest2⟩
        · rw [hps] at hc
          simp at hc
        · simp
      have hmem2 := (List.mem_filter.mp hmem).1
      rw [h1] at hmem2
      simpa using hmem2
    · rw [if_neg hc] at h
      exact ih r h

/-- A terminal `victory` records winner 0 or winner 1 (for a real player). -/
theorem victory_winner_cases {s : JState} {player : Nat}
    (hpl : player = 0 ∨ player = 1) (h : (victory s player).1 = true) :
    (victory s player).2.winner = some 0 ∨ (victory s player).2.winner = some 1 := by
  unfold victory at h ⊢
  by_cases h1 : liveCount s (1 - player) = 0
  · rw [if_pos h1]
    rcases hpl with rfl | rfl
    · exact Or.inl rfl
    · exact Or.inr rfl
  · rw [if_neg h1] at h ⊢
    by_cases h2 : (bget s.board (dens.getD (1 - player) (0, 0)).1
        (dens.getD (1 - player) (0, 0)).2).isSome = true
    · rw [if_pos h2]
      rcases hpl with rfl | rfl
      · exact Or.inl rfl
      · exact Or.inr rfl
    · rw [if_neg h2] at h ⊢
      by_cases h3 : MAXIMAL_PASSIVE ≤ s.peace_counter
      · rw [if_pos h3]
        rcases hpc : pieces_comparison s with _ | r
        · exact Or.inl rfl
        · rcases pcGo_mem _ r hpc with rfl | rfl
          · exact Or.inl rfl
          · exact Or.inr rfl
      · rw [if_neg h3] at h
        exact absurd h (by simp)

/-- `finishUpdate`'s return value: `None` while the game continues, else
`2 * winner - 1`. -/
theorem finishUpdate_spec (s : JState) (player : Nat) (m : Option Move)
    (hpl : player = 0 ∨ player = 1) :
    ∀ r s2, finishUpdate s player m = Except.ok (r, s2) →
      (r = none ∧ s2.winner = s.winner) ∨ (r = some 1 ∧ s2.winner = some 1) ∨
        (r = some (-1) ∧ s2.winner = some 0) := by
  intro r s2 h
  unfold finishUpdate at h
  by_cases hv : (victory (do_move s m) player).1 = true
  · rw [if_pos hv] at h
    injection h with h1
    injection h1 with h2 h3
    rcases victory_winner_cases hpl hv with hw | hw
    · refine Or.inr (Or.inr ⟨?_, ?_⟩)
      · rw [← h2, hw]
        rfl
      · rw [← h3]
        exact hw
    · refine Or.inr (Or.inl ⟨?_, ?_⟩)
      · rw [← h2, hw]
        rfl
      · rw [← h3]
        exact hw
  · rw [if_neg hv] at h
    injection h with h1
    injection h1 with h2 h3
    refine Or.inl ⟨h2.symm, ?_⟩
    rw [← h3, victory_false_state (by simpa using hv), do_move_winner]

/-- C8 (amended): `update` raises the declared invalid-move (`WrongMove`)
error exactly when every token parses as an integer and the count is not 4,
or a non-pass is submitted with no legal move available, or the decoded
move is not in the re-derived legal-move set (including a pass while moves
exist); a token that `int(...)` cannot parse raises `ValueError`, not
`WrongMove`. On success it returns `None` while the game continues, `+1`
when the result resolves to player 1 and `-1` when it resolves to
player 0. -/
theorem claim_C8 (s : JState) (player : Nat) (tokens : List (Option Int))
    (hpl : player = 0 ∨ player = 1) :
    (update s player tokens = Except.error UpdErr.wrongMove ↔
      WrongMoveCond s player tokens) ∧
    UpdateReturnSpec s player tokens := by
  have hmv : moves { s with curplayer := player } player = moves s player := rfl
  constructor
  · unfold update
    rcases hpt : parseInts tokens with _ | ints
    · constructor
      · intro h
        exact absurd h (by simp)
      · rintro ⟨ints2, hints2, _⟩
        rw [hpt] at hints2
        exact absurd hints2 (by simp)
    · dsimp only
      by_cases hlen : ints.length ≠ 4
      · rw [if_pos hlen]
        exact ⟨fun _ => ⟨ints, hpt, Or.inl hlen⟩, fun _ => rfl⟩
      · rw [if_neg hlen]
        push_neg at hlen
        by_cases hempty : (moves { s with curplayer := player } player).isEmpty
        · rw [if_pos hempty]
          have hnil : moves s player = [] := by
            rw [← hmv]
            exact List.isEmpty_iff.mp hempty
          by_cases hpass : ints ≠ [-1, -1, -1, -1]
          · rw [if_pos hpass]
            exact ⟨fun _ => ⟨ints, hpt, Or.inr (Or.inl ⟨hnil, hpass⟩)⟩, fun _ => rfl⟩
          · rw [if_neg hpass]
            push_neg at hpass
            constructor
            · intro h
              exact absurd h (by
                unfold finishUpdate
                by_cases hv : (victory (do_move { s with curplayer := player } none)
                    player).1 = true
                · rw [if_pos hv]
                  simp
                · rw [if_neg hv]
                  simp)
            · rintro ⟨ints2, hints2, hcond⟩
              rw [hpt] at hints2
              injection hints2 with h2
              subst h2
              rcases hcond with hc | hc | hc
              · exact absurd hlen hc
              · exact absurd hpass hc.2
              · exact absurd hnil hc.1
        · rw [if_neg hempty]
          have hnotnil : moves s player ≠ [] := by
            rw [← hmv]
            intro hc
            rw [hc] at hempty
            exact hempty (by simp)
          by_cases hin : (((ints.getD 0 0, ints.getD 1 0),
              (ints.getD 2 0, ints.getD 3 0)) : Move) ∈
                moves { s with curplayer := player } player
          · rw [if_pos hin]
            constructor
            · intro h
              exact absurd h (by
                unfold finishUpdate
                by_cases hv : (victory (do_move { s with curplayer := player }
                    (some ((ints.getD 0 0, ints.getD 1 0),
                      (ints.getD 2 0, ints.getD 3 0)))) player).1 = true
                · rw [if_pos hv]
                  simp
                · rw [if_neg hv]
                  simp)
            · rintro ⟨ints2, hints2, hcond⟩
              rw [hpt] at hints2
              injection hints2 with h2
              subst h2
              rcases hcond with hc | hc | hc
              · exact absurd hlen hc
              · exact absurd hc.1 hnotnil
              · exact absurd (hmv ▸ hin) hc.2
          · rw [if_neg hin]
            exact ⟨fun _ => ⟨ints, hpt,
              Or.inr (Or.inr ⟨hnotnil, fun hc => hin (hmv ▸ hc)⟩)⟩, fun _ => rfl⟩
  · intro r s2 h
    unfold update at h
    rcases hpt : parseInts tokens with _ | ints
    · rw [hpt] at h
      exact absurd h (by simp)
    · rw [hpt] at h
      dsimp only at h
      by_cases hlen : ints.length ≠ 4
      · rw [if_pos hlen] at h
        exact absurd h (by simp)
      · rw [if_neg hlen] at h
        by_cases hempty : (moves { s with curplayer := player } player).isEmpty
        · rw [if_pos hempty] at h
          by_cases hpass : ints ≠ [-1, -1, -1, -1]
          · rw [if_pos hpass] at h
            exact absurd h (by simp)
          · rw [if_neg hpass] at h
            exact finishUpdate_spec { s with curplayer := player } player none hpl r s2 h
        · rw [if_neg hempty] at h
          by_cases hin : (((ints.getD 0 0, ints.getD 1 0),
              (ints.getD 2 0, ints.getD 3 0)) : Move) ∈
                moves { s with curplayer := player } player
          · rw [if_pos hin] at h
            exact finishUpdate_spec { s with curplayer := player } player _ hpl r s2 h
          · rw [if_neg hin] at h
            exact absurd h (by simp)

/-- C8 witness: applying the theorem at the initial position, player 1 and
the token list for the legal rat move `0 2 0 3`. -/
theorem claim_C8_witness :
    (update initState 1 [some 0, some 2, some 0, some 3] = Except.error UpdErr.wrongMove ↔
      WrongMoveCond initState 1 [some 0, some 2, some 0, some 3]) ∧
    UpdateReturnSpec initState 1 [some 0, some 2, some 0, some 3] :=
  claim_C8 initState 1 [some 0, some 2, some 0, some 3] (Or.inr rfl)

/-- C8 counterexample: the token list `[none, 1, 2, 3]` (first token not an
integer literal) "does not parse into exactly 4 integers", but `update`
raises Python's `ValueError` from `int(...)`, not the invalid-move
(`WrongMove`) error the claim requires. -/
theorem claim_C8_counterexample :
    update initState 1 [none, some 1, some 2, some 3] =
      Except.error UpdErr.valueError ∧
    UpdErr.valueError ≠ UpdErr.wrongMove :=
  ⟨rfl, by decide⟩

end Jungle
